import Mathlib

/-!
# webshare content store: retention, quota and ingestion

A shallow embedding of `internal/handlers` and `internal/pkg` of the
webshare repository.  Go machine integers are `Int`/`Nat` with explicit
wrap-around, the content directory is an explicit tree value, and every
operation that touches the disk passes the tree along.
-/

namespace Webshare

set_option maxRecDepth 100000

/-! ## Durations (`time.Duration`, a signed 64-bit nanosecond count) -/

/-- Two's-complement wrap-around of a mathematical integer into `int64`. -/
def wrapInt64 (x : Int) : Int := (x + 2 ^ 63) % 2 ^ 64 - 2 ^ 63

/-- Nanoseconds in `time.Minute`. -/
def minuteNs : Int := 60000000000

/-- Go conversion `time.Duration(f)` of a finite `float64` that lies within
the `int64` range: the fraction is discarded (truncation toward zero).  A
finite `float64` is a rational number, so the rate is carried as a `ℚ`. -/
def truncRate (r : ℚ) : Int := Int.tdiv r.num r.den

/-- The expression of `loadPageInfo` (server.go:227)
`(time.Duration(config.MinutesPerGigabyte) * time.Minute) * time.Duration(1000000000/p.Size)`.
`p.Size` is a `uint64`, so the quotient is an integer division and a zero
size is a run-time panic (`none`); both products are `int64` products and
wrap around. -/
def timeToDeletion (r : ℚ) (size : Nat) : Option Int :=
  if size = 0 then none
  else some (wrapInt64 (wrapInt64 (truncRate r * minuteNs) * ((1000000000 / size : Nat) : Int)))

/-- The time-to-deletion in the words of the specification: the rate in
minutes per gigabyte times one gigabyte over the size, as a real-valued
number of nanoseconds. -/
def specTimeToDeletion (r : ℚ) (size : Nat) : ℚ :=
  r * 60000000000 * (1000000000 / (size : ℚ))

/-- Saturation of a mathematical integer into the `int64` range, as
`time.Time.Sub` (hence `time.Since`) does with a difference that does not fit. -/
def clampInt64 (x : Int) : Int :=
  if x < -(2 ^ 63) then -(2 ^ 63) else if 2 ^ 63 - 1 < x then 2 ^ 63 - 1 else x

/-! ## Configuration, pages and the content directory -/

/-- A slash-separated path, held as the list of segments `strings.Split(p, "/")`
returns for it (`"data/123/f"` is `["data", "123", "f"]`, `"/srv/data"` is
`["", "srv", "data"]`). -/
abbrev Path := List String

/-- The fields of `config.Config` the content store reads. -/
structure Config where
  ContentDirectory : Path
  MaxBytesTotal : Int
  MaxBytesPerFile : Int
  MinutesPerGigabyte : ℚ

/-- The fields of `Page` that the store writes, reads back or computes.
`Modified` is a point in time in nanoseconds; the human-readable strings and
the flags derived from `ContentType` are left out. -/
structure Page where
  ID : String
  Name : String
  Hash : String
  Size : Nat
  ContentType : String
  Modified : Int
  IsASCII : Bool
  NameOnDisk : Path
  TimeToDeletion : Int
deriving DecidableEq

/-- What a regular file holds, as far as the store can observe it: a gzip
stream of the bytes `plain`, as `handlePost` writes for a payload; the gzip
stream `writeGzippedJSON` writes for a page; or bytes that are no gzip
stream. -/
inductive Content where
  | payload (plain : List Nat) : Content
  | sidecar (p : Page) : Content
  | garbage : Content
deriving DecidableEq

/-- A node of the file tree: a regular file with the size `Lstat` reports
for it, or a directory with its entries in listing order. -/
inductive Node where
  | file (size : Nat) (content : Content) : Node
  | dir (entries : List (String × Node)) : Node

/-- The state of the disk at the content directory: `none` when the path
does not exist. -/
abbrev Store := Option Node

/-- Go `filepath.Join(p, name)` for a clean path `p` and a file name. -/
def joinPath (p : Path) (name : String) : Path :=
  if p = ["."] then [name] else if p = ["", ""] then ["", name] else p ++ [name]

mutual
/-- The visits of `filepath.Walk` to non-directories below `p`, in walk
order, each with its path and size. -/
def walkFiles : Path → Node → List (Path × Nat)
  | p, .file sz _ => [(p, sz)]
  | p, .dir es => walkEntries p es
/-- The walk over the entries of the directory at `p`. -/
def walkEntries : Path → List (String × Node) → List (Path × Nat)
  | _, [] => []
  | p, (nm, n) :: rest => walkFiles (joinPath p nm) n ++ walkEntries p rest
end

/-- Go `os.RemoveAll(path.Join(root, id))` for a file name `id`: the entry
of that name disappears with everything below it; an absent entry is no
error. -/
def removeAll (s : Store) (id : String) : Store :=
  match s with
  | some (.dir es) => some (.dir (es.filter fun e => e.1 ≠ id))
  | other => other

/-- Go `strings.Split(s, "/")` on the characters of `s`. -/
def splitSlash : List Char → List (List Char)
  | [] => [[]]
  | c :: cs =>
    if c = '/' then [] :: splitSlash cs
    else
      match splitSlash cs with
      | [] => [[c]]
      | seg :: rest => (c :: seg) :: rest

/-- The slash-separated elements of a string. -/
def segmentsOf (s : String) : List String := (splitSlash s.data).map String.mk

/-- One element in `path.Clean`; the stack holds the elements kept so far,
the last one first.  Empty elements and `.` are dropped, `..` takes the
element before it away, stays at the front of a relative path and is dropped
at the front of a rooted one. -/
def cleanStep (rooted : Bool) (stack : List String) (seg : String) : List String :=
  if seg = "" ∨ seg = "." then stack
  else if seg = ".." then
    match stack with
    | [] => if rooted then [] else [".."]
    | top :: rest => if top = ".." then ".." :: top :: rest else rest
  else seg :: stack

/-- The elements of `path.Clean` of the path with the elements `segs`. -/
def cleanPath (rooted : Bool) (segs : List String) : List String :=
  (segs.foldl (cleanStep rooted) []).reverse

/-- Whether the path begins with a slash. -/
def isRooted (root : Path) : Bool :=
  match root with
  | "" :: _ :: _ => true
  | _ => false

mutual
/-- The node without what lies at the relative path `rel` below it. -/
def removeInNode : List String → Node → Node
  | _, .file sz c => .file sz c
  | rel, .dir es => .dir (removeInEntries rel es)
/-- The entries without what lies at the relative path `rel` below them. -/
def removeInEntries : List String → List (String × Node) → List (String × Node)
  | _, [] => []
  | [], e :: rest => e :: rest
  | [n], (m, x) :: rest =>
    if m = n then removeInEntries [n] rest else (m, x) :: removeInEntries [n] rest
  | n :: r :: rs, (m, x) :: rest =>
    (if m = n then (m, removeInNode (r :: rs) x) else (m, x)) ::
      removeInEntries (n :: r :: rs) rest
end

/-- Go `os.RemoveAll(path.Join(root, id))` for any string `id`, the paths
compared as cleaned texts.  A target inside the content directory
disappears with everything below it; the content directory itself, or a
directory above it, takes the whole store away, except that `RemoveAll(".")`
is refused and `RemoveAll("/")` leaves the emptied root; a target that
climbs above the working directory and names a directory there is taken to
lie beside the content directory, like every other target outside it. -/
def removeJoined (root : Path) (s : Store) (id : String) : Store :=
  let rooted := isRooted root
  let base := cleanPath rooted root
  let target := cleanPath rooted (root ++ segmentsOf id)
  if base.isPrefixOf target then
    match target.drop base.length with
    | [] =>
      if target = [] then
        if rooted then
          match s with
          | some (.dir _) => some (.dir [])
          | other => other
        else s
      else none
    | n :: rel =>
      match s with
      | some (.dir es) => some (.dir (removeInEntries (n :: rel) es))
      | other => other
  else if target.isPrefixOf base ∨ (rooted = false ∧ target.all fun seg => seg = "..") then
    if target = [] ∧ rooted = false then s else none
  else s

/-- Whether `os.Remove` can remove the node: a file or an empty directory. -/
def removable : Node → Bool
  | .file _ _ => true
  | .dir [] => true
  | .dir (_ :: _) => false

/-- Go `os.Remove(path.Join(root, name))`; a failure leaves the disk as it is. -/
def removeOne (s : Store) (name : String) : Store :=
  match s with
  | some (.dir es) => some (.dir (es.filter fun e => ¬ (e.1 = name ∧ removable e.2 = true)))
  | other => other

/-- The entry called `name` among `es`. -/
def lookupEntry (es : List (String × Node)) (name : String) : Option Node :=
  (es.find? fun e => e.1 = name).map Prod.snd

/-- The regular file `root/id/name`, when it can be opened: both names
must exist, `id` as a directory and `name` as a file in it. -/
def openItemFile (s : Store) (id name : String) : Option (Nat × Content) :=
  match s with
  | some (.dir es) =>
    match lookupEntry es id with
    | some (.dir fs) =>
      match lookupEntry fs name with
      | some (.file sz c) => some (sz, c)
      | _ => none
    | _ => none
  | _ => none

/-- Go `strings.HasPrefix(s, pre)`. -/
def hasPrefix (s pre : String) : Bool := pre.data.isPrefixOf s.data

/-- Outcome of a call that may return an error or panic. -/
inductive Res (α : Type) where
  | ok (a : α) : Res α
  | err : Res α
  | panic : Res α

/-! ## Libraries -/

/-- What `json.NewDecoder(w).Decode(&p)` makes of the text of a sidecar,
`p` being a `*Page`: an error, the nil pointer that the text `null` leaves
without an error, or a record. -/
inductive Decoded where
  | invalid : Decoded
  | null : Decoded
  | record (p : Page) : Decoded

/-- What the standard and third-party libraries supply: the length of the
gzip stream of a payload and of the sidecar of a page, the JSON text of a
page, what the JSON decoder makes of a text, the MD5 hex digest of a file,
the `k`-th result of `Intn(10)` on `rand.New(rand.NewSource(seed))`, whether
the first `Read` of the decompressed payload into the 261-byte header
returns an error, and the content type with the ASCII flag sniffed from file
name and payload. -/
structure Lib where
  gzipLen : List Nat → Nat
  jsonLen : Page → Nat
  jsonText : Page → List Nat
  jsonDecode : List Nat → Decoded
  md5 : Content → String
  Intn : Int → Nat → Nat
  readFails : List Nat → Bool
  sniff : String → List Nat → String × Bool

/-! ## Store scanner and quota enforcer of package `pkg` (utils.go) -/

namespace pkg

/-- The `fileInfo` record of utils.go. -/
structure fileInfo where
  Id : String
  Path : Path
  Size : Int
deriving DecidableEq

/-- One call of the walk function of `pkg.DirSize` on a non-directory:
`totalSize += info.Size()`, and the file becomes `largestFile` when there is
none yet or it is strictly larger.  `strings.Split(filePath, "/")[1]` panics
(`none`) on a path of fewer than two segments. -/
def visit (acc : Int × Option fileInfo) (f : Path × Nat) : Option (Int × Option fileInfo) :=
  let total := wrapInt64 (acc.1 + (f.2 : Int))
  let take : Option (Int × Option fileInfo) :=
    match f.1.get? 1 with
    | none => none
    | some id => some (total, some ⟨id, f.1, (f.2 : Int)⟩)
  match acc.2 with
  | none => take
  | some l => if (f.2 : Int) > l.Size then take else some (total, some l)

/-- The walk function applied to the files in walk order. -/
def visitAll : List (Path × Nat) → Int × Option fileInfo → Option (Int × Option fileInfo)
  | [], acc => some acc
  | f :: rest, acc =>
    match visit acc f with
    | none => none
    | some a => visitAll rest a

/-- Go `pkg.DirSize(path)`: total size, largest file and whether an error is
returned (the root cannot be stat-ed); `none` is a panic. -/
def DirSize (root : Path) (s : Store) : Option (Int × Option fileInfo × Bool) :=
  match s with
  | none => some (0, none, true)
  | some n => (visitAll (walkFiles root n) (0, none)).map fun a => (a.1, a.2, false)

/-- The loop of `pkg.TrimContent` with `k` rounds left; the second component
collects the ids logged as removed.  `largestFile.Id` on a nil `largestFile`
is a nil-pointer panic (`none`). -/
def TrimContentLoop (cfg : Config) : Nat → Store → List String → Option (Store × List String)
  | 0, s, log => some (s, log)
  | k + 1, s, log =>
    match DirSize cfg.ContentDirectory s with
    | none => none
    | some (dirSize, largestFile, _) =>
      if dirSize < cfg.MaxBytesTotal then some (s, log)
      else
        match largestFile with
        | none => none
        | some l =>
          if l.Id = "" then some (s, log)
          else TrimContentLoop cfg k (removeJoined cfg.ContentDirectory s l.Id) (log ++ [l.Id])

/-- Go `pkg.TrimContent(config)`: at most 30 rounds. -/
def TrimContent (cfg : Config) (s : Store) : Option (Store × List String) :=
  TrimContentLoop cfg 30 s []

end pkg

/-! ## Store scanner and quota enforcer of package `handlers` (file_handler.go) -/

namespace handlers

/-- One call of the walk function of `handlers.DirSize` on a non-directory;
the state is `size`, `biggestFileID` and `biggestFileSize`. -/
def visit (acc : Int × String × Int) (f : Path × Nat) : Option (Int × String × Int) :=
  let size := wrapInt64 (acc.1 + (f.2 : Int))
  if (f.2 : Int) > acc.2.2 then
    match f.1.get? 1 with
    | none => none
    | some id => some (size, id, (f.2 : Int))
  else some (size, acc.2.1, acc.2.2)

/-- The walk function applied to the files in walk order. -/
def visitAll : List (Path × Nat) → Int × String × Int → Option (Int × String × Int)
  | [], acc => some acc
  | f :: rest, acc =>
    match visit acc f with
    | none => none
    | some a => visitAll rest a

/-- Go `handlers.DirSize(path)`: total size, `biggestFileID` and whether an
error is returned; `none` is a panic. -/
def DirSize (root : Path) (s : Store) : Option (Int × String × Bool) :=
  match s with
  | none => some (0, "", true)
  | some n => (visitAll (walkFiles root n) (0, "", 0)).map fun a => (a.1, a.2.1, false)

/-- The loop of `handlers.TrimContent` with `k` rounds left; the second
component collects the ids logged as removed. -/
def TrimContentLoop (cfg : Config) : Nat → Store → List String → Option (Store × List String)
  | 0, s, log => some (s, log)
  | k + 1, s, log =>
    match DirSize cfg.ContentDirectory s with
    | none => none
    | some (dirSize, biggestFileID, _) =>
      if dirSize < cfg.MaxBytesTotal ∨ biggestFileID = "" then some (s, log)
      else
        TrimContentLoop cfg k (removeJoined cfg.ContentDirectory s biggestFileID)
          (log ++ [biggestFileID])

/-- Go `handlers.TrimContent(config)`: at most 30 rounds. -/
def TrimContent (cfg : Config) (s : Store) : Option (Store × List String) :=
  TrimContentLoop cfg 30 s []

end handlers

/-! ## Retention sweeper (server.go) -/

/-- The bytes of a stored file put through `gzip.NewReader` and the JSON
decoder: a file that is no gzip stream is an error, the sidecar written for
a page decodes to that page, and the text of a stored payload is decoded
like any other. -/
def decodeFile (lib : Lib) : Content → Decoded
  | .payload b => lib.jsonDecode b
  | .sidecar p => .record p
  | .garbage => .invalid

/-- Go `loadPageInfo(id, config)`: open `root/id/id.json.gz`, decompress,
decode, then fill in `NameOnDisk` and `TimeToDeletion`.  After the text
`null` the page is nil and the assignment to `p.NameOnDisk` panics; a size of
0 makes the division panic. -/
def loadPageInfo (lib : Lib) (id : String) (cfg : Config) (s : Store) : Res Page :=
  match openItemFile s id (id ++ ".json.gz") with
  | none => .err
  | some (_, c) =>
    match decodeFile lib c with
    | .invalid => .err
    | .null => .panic
    | .record p =>
      match timeToDeletion cfg.MinutesPerGigabyte p.Size with
      | none => .panic
      | some ttl =>
        .ok { p with NameOnDisk := joinPath (joinPath cfg.ContentDirectory p.ID) p.Name,
                     TimeToDeletion := ttl }

/-- The body of the loop of `deleteOld` for the directory entry `name`, at
the instant `now`; `none` is a panic. -/
def deleteOldStep (lib : Lib) (cfg : Config) (now : Int) (removeTempFiles : Bool) (s : Store)
    (name : String) : Option Store :=
  if hasPrefix name "upload_" then
    some (if removeTempFiles then removeOne s name else s)
  else
    match loadPageInfo lib name cfg s with
    | .err => some s
    | .panic => none
    | .ok p =>
      if clampInt64 (now - p.Modified) < p.TimeToDeletion then some s
      else some (removeJoined cfg.ContentDirectory s p.ID)

/-- The loop of `deleteOld` over the names `os.ReadDir` returned. -/
def deleteOldLoop (lib : Lib) (cfg : Config) (now : Int) (removeTempFiles : Bool) :
    List String → Store → Option Store
  | [], s => some s
  | name :: rest, s =>
    match deleteOldStep lib cfg now removeTempFiles s name with
    | none => none
    | some s1 => deleteOldLoop lib cfg now removeTempFiles rest s1

/-- Go `(*Server).deleteOld(removeTempFiles...)`, the whole pass taken at the
instant `now`. -/
def deleteOld (lib : Lib) (cfg : Config) (now : Int) (removeTempFiles : Bool) (s : Store) :
    Option Store :=
  match pkg.DirSize cfg.ContentDirectory s with
  | none => none
  | some (_, _, true) => some s
  | some (_, _, false) =>
    match s with
    | some (.dir es) => deleteOldLoop lib cfg now removeTempFiles (es.map Prod.fst) s
    | _ => some s

/-! ## Ingestion and payload read (utils.go, file_handler.go, page.go) -/

/-- The I/O steps of `copyToContentDirectory` that the operating system may
fail in the run at hand.  A failing `os.RemoveAll` has removed what it could
and leaves a residue at `root/id`; a failing write of the sidecar leaves a
file of some size and content. -/
structure Faults where
  removeExisting : Option Node
  mkdir : Bool
  rename : Bool
  sidecarCreate : Bool
  sidecarWrite : Option (Nat × Content)

/-- The 32-bit FNV-1a hash (`fnv.New32a`, `Write`, `Sum32`) of the UTF-8
bytes of a string. -/
def fnv32a (seedString : String) : Nat :=
  (seedString.data.flatMap fun c => (String.utf8EncodeChar c).map UInt8.toNat).foldl
    (fun h b => ((h ^^^ b) * 16777619) % 2 ^ 32) 2166136261

/-- Go `pkg.RandomName(seedString)`: three draws of `Intn(10)` from the
source seeded with the FNV-1a hash, printed with `%d%d%d`. -/
def RandomName (lib : Lib) (seedString : String) : String :=
  let seed : Int := (fnv32a seedString : Int)
  toString (lib.Intn seed 0) ++ toString (lib.Intn seed 1) ++ toString (lib.Intn seed 2)

/-- The regular file `root/name`, when it can be opened. -/
def openRootFile (s : Store) (name : String) : Option (Nat × Content) :=
  match s with
  | some (.dir es) =>
    match lookupEntry es name with
    | some (.file sz c) => some (sz, c)
    | _ => none
  | _ => none

/-- Whether `os.Stat(root/id)` finds something. -/
def existsEntry (s : Store) (id : String) : Bool :=
  match s with
  | some (.dir es) => (lookupEntry es id).isSome
  | _ => false

/-- Go `os.MkdirAll(root/id)` when nothing is at `root/id`: the missing
directories are created; it fails when the root is a regular file. -/
def mkdirAll (s : Store) (id : String) : Option Store :=
  match s with
  | none => some (some (.dir [(id, .dir [])]))
  | some (.dir es) => some (some (.dir (es ++ [(id, .dir [])])))
  | some (.file _ _) => none

/-- The entries `es` with the file `name` created or replaced. -/
def putFile (es : List (String × Node)) (name : String) (f : Node) : List (String × Node) :=
  (es.filter fun e => e.1 ≠ name) ++ [(name, f)]

/-- The store with the file `name` created or replaced inside the directory `id`. -/
def putItemFile (s : Store) (id name : String) (f : Node) : Store :=
  match s with
  | some (.dir es) =>
    some (.dir (es.map fun e =>
      if e.1 = id then
        match e.2 with
        | .dir fs => (e.1, .dir (putFile fs name f))
        | .file sz c => (e.1, .file sz c)
      else e))
  | other => other

/-- Go `pkg.GetFileContentType` on a stored file: the gzip reader must open,
the first `Read` must not return an error, then the type is sniffed. -/
def GetFileContentType (lib : Lib) (filename : String) (c : Content) : Option (String × Bool) :=
  match c with
  | .payload b => if lib.readFails b then none else some (lib.sniff filename b)
  | .sidecar p =>
    if lib.readFails (lib.jsonText p) then none else some (lib.sniff filename (lib.jsonText p))
  | .garbage => none

/-- The store with the root entries called `id` replaced by `residue`. -/
def replaceEntry (s : Store) (id : String) (residue : Node) : Store :=
  match s with
  | some (.dir es) => some (.dir (es.map fun e => if e.1 = id then (e.1, residue) else e))
  | other => other

/-- Go `writeGzippedJSON(page, root/id/id.json.gz)`; the flag tells whether
no error is returned.  A failed `os.Create` leaves the directory as it is, a
failed write leaves what the fault says. -/
def writeGzippedJSON (lib : Lib) (flt : Faults) (page : Page) (id : String) (s : Store) :
    Store × Bool :=
  if flt.sidecarCreate then (s, false)
  else
    match flt.sidecarWrite with
    | some (sz, c) => (putItemFile s id (id ++ ".json.gz") (.file sz c), false)
    | none =>
      (putItemFile s id (id ++ ".json.gz") (.file (lib.jsonLen page) (.sidecar page)), true)

/-- Go `copyToContentDirectory(fname, tempFname, originalSize, config)` at
the instant `now`: the disk after the call, the deferred
`os.Remove(tempFname)` included, and `fnameFull` when no error is returned.
The `TrimContent` it starts in a goroutine is not part of the call. -/
def copyToContentDirectory (lib : Lib) (flt : Faults) (now : Int) (fname tempFname : String)
    (originalSize : Nat) (_config : Config) (s : Store) : Store × Option String :=
  let hash : String :=
    match openRootFile s tempFname with
    | some (_, c) => lib.md5 c
    | none => ""
  let id := RandomName lib hash
  match (if existsEntry s id then flt.removeExisting else none) with
  | some residue => (removeOne (replaceEntry s id residue) tempFname, none)
  | none =>
    let s1 := if existsEntry s id then removeAll s id else s
    match (if flt.mkdir then none else mkdirAll s1 id) with
    | none => (removeOne s1 tempFname, none)
    | some s2 =>
      match (if flt.rename then none else openRootFile s2 tempFname) with
      | none => (removeOne s2 tempFname, none)
      | some (sz, c) =>
        let s3 := putItemFile (removeAll s2 tempFname) id fname (.file sz c)
        match GetFileContentType lib fname c with
        | none => (removeOne s3 tempFname, none)
        | some (contentType, isASCII) =>
          let page : Page :=
            { ID := id, Name := fname, Hash := hash, Size := originalSize,
              ContentType := contentType, Modified := now, IsASCII := isASCII,
              NameOnDisk := [], TimeToDeletion := 0 }
          match writeGzippedJSON lib flt page id s3 with
          | (s4, false) => (removeOne s4 tempFname, none)
          | (s4, true) => (removeOne s4 tempFname, some (id ++ "/" ++ fname))

/-- Go `(*Page).handlePost` for an upload of the bytes `b` under `filename`,
`tmp` being the name `os.CreateTemp(root, "upload_")` picks: the disk after
the call and the `id` field of the 201 response, if that is the response. -/
def handlePost (lib : Lib) (flt : Faults) (now : Int) (tmp filename : String) (b : List Nat)
    (cfg : Config) (s : Store) : Store × Option String :=
  if (b.length : Int) > cfg.MaxBytesPerFile then (s, none)
  else
    match s with
    | some (.dir es) =>
      let s1 : Store := some (.dir (es ++ [(tmp, .file (lib.gzipLen b) (.payload b))]))
      let r := copyToContentDirectory lib flt now filename tmp b.length cfg s1
      (removeOne r.1 tmp, r.2)
    | _ => (s, none)

/-- The file a path of the form `root/id/name` names, when it can be opened. -/
def openPath (cfg : Config) (s : Store) (p : Path) : Option (Nat × Content) :=
  match p.reverse with
  | name :: id :: _ =>
    if joinPath (joinPath cfg.ContentDirectory id) name = p then openItemFile s id name else none
  | _ => none

/-- Go `(*Page).handleGetData(w, decompress)` with `decompress = true`: the
bytes copied to the response.  An open error is returned; a file that is no
gzip stream leaves a nil reader, whose use panics. -/
def handleGetData (lib : Lib) (cfg : Config) (s : Store) (p : Page) : Res (List Nat) :=
  match openPath cfg s p.NameOnDisk with
  | none => .err
  | some (_, .payload b) => .ok b
  | some (_, .sidecar q) => .ok (lib.jsonText q)
  | some (_, .garbage) => .panic

/-- The read of a stored payload: `loadPageInfo` followed by `handleGetData`
with decompression. -/
def getData (lib : Lib) (cfg : Config) (s : Store) (id : String) : Res (List Nat) :=
  match loadPageInfo lib id cfg s with
  | .ok p => handleGetData lib cfg s p
  | .err => .err
  | .panic => .panic

/-! ## Vocabulary of the statements -/

/-- What the sidecar `name/name.json.gz` of a root entry decodes to; a
missing sidecar counts as invalid. -/
def entrySidecar (lib : Lib) (e : String × Node) : Decoded :=
  match e.2 with
  | .dir fs =>
    match lookupEntry fs (e.1 ++ ".json.gz") with
    | some (.file _ c) => decodeFile lib c
    | _ => .invalid
  | .file _ _ => .invalid

/-- Whether a sweep at `now` leaves the root entry `e` in place, judged on
the entry alone: a transient upload stays unless the startup pass can remove
it, an entry without a decodable sidecar stays, an item stays while its age
is below its time-to-deletion. -/
def sweepKeeps (lib : Lib) (cfg : Config) (now : Int) (removeTempFiles : Bool)
    (e : String × Node) : Bool :=
  if hasPrefix e.1 "upload_" then !(removeTempFiles && removable e.2)
  else
    match entrySidecar lib e with
    | .record p =>
      match timeToDeletion cfg.MinutesPerGigabyte p.Size with
      | none => true
      | some ttl => decide (clampInt64 (now - p.Modified) < ttl)
    | _ => true

/-- What `loadPageInfo` returns once the sidecar has been opened and put
through the decoder. -/
def pageOf (cfg : Config) : Decoded → Res Page
  | .invalid => .err
  | .null => .panic
  | .record p =>
    match timeToDeletion cfg.MinutesPerGigabyte p.Size with
    | none => .panic
    | some ttl =>
      .ok { p with NameOnDisk := joinPath (joinPath cfg.ContentDirectory p.ID) p.Name,
                   TimeToDeletion := ttl }

/-- A name a directory listing can hold: not empty, not `.` or `..`, free of
slashes. -/
def ProperName (n : String) : Prop :=
  n ≠ "" ∧ n ≠ "." ∧ n ≠ ".." ∧ '/' ∉ n.data

/-- The store invariant ingestion establishes for a root entry: its sidecar
does not decode to a nil page, and a record it decodes to names the
directory it lies in and has a non-zero size. -/
def WellFormedEntry (lib : Lib) (e : String × Node) : Prop :=
  entrySidecar lib e ≠ .null ∧ ∀ p, entrySidecar lib e = .record p → p.ID = e.1 ∧ p.Size ≠ 0

/-- Every root entry is a directory: the store holds items only. -/
def ItemsOnly (es : List (String × Node)) : Prop :=
  ∀ e ∈ es, ∃ fs, e.2 = .dir fs

/-- A plain relative directory name such as the default `data`. -/
def PlainRoot (root : Path) : Prop :=
  ∃ r, root = [r] ∧ r ≠ "." ∧ r ≠ ""

/-- A content directory below which the scan of `pkg.DirSize` finds two
segments in every path: any path but `.`. -/
def ScanRoot (root : Path) : Prop :=
  root ≠ [] ∧ root ≠ ["."]

/-! ## Concrete scenarios -/

/-- The configuration `LoadConfig` builds from the flag defaults. -/
def defaultConfig : Config :=
  { ContentDirectory := ["data"], MaxBytesTotal := 10000000000,
    MaxBytesPerFile := 1000000000, MinutesPerGigabyte := 60 }

/-- A page record as ingestion writes it. -/
def mkPage (id name : String) (size : Nat) (modified : Int) : Page :=
  { ID := id, Name := name, Hash := "", Size := size, ContentType := "application/octet-stream",
    Modified := modified, IsASCII := false, NameOnDisk := [], TimeToDeletion := 0 }

/-- An item directory: the sidecar and a payload file of `diskSize` bytes. -/
def mkItem (id name : String) (diskSize size : Nat) (modified : Int) : String × Node :=
  (id, .dir [(id ++ ".json.gz", .file 300 (.sidecar (mkPage id name size modified))),
             (name, .file diskSize (.payload [1]))])

/-- A store with an item of 10 MB modified at `m1` and an item of 100 MB
modified at `m2`. -/
def twoItemsAt (m1 m2 : Int) : List (String × Node) :=
  [mkItem "111" "small.bin" 10000000 10000000 m1, mkItem "222" "big.bin" 100000000 100000000 m2]

/-- A store with an older item of 10 MB and a newer item of 100 MB. -/
def twoItems : List (String × Node) := twoItemsAt 0 5

/-- The default configuration with a total cap of 50 MB. -/
def cap50 : Config := { defaultConfig with MaxBytesTotal := 50000000 }

/-- An item directory whose sidecar does not decode. -/
def brokenItem (id name : String) (diskSize : Nat) : String × Node :=
  (id, .dir [(id ++ ".json.gz", .file 10 .garbage), (name, .file diskSize (.payload [1]))])

/-- Five items of 1,000,000,000 bytes each, the third with an undecodable
sidecar; seen from the instant of 100 minutes the others are aged 61, 59, 61
and 59 minutes. -/
def fiveItems : List (String × Node) :=
  [mkItem "101" "a" 1000 1000000000 (39 * minuteNs),
   mkItem "102" "b" 1000 1000000000 (41 * minuteNs),
   brokenItem "103" "c" 1000,
   mkItem "104" "d" 1000 1000000000 (39 * minuteNs),
   mkItem "105" "e" 1000 1000000000 (41 * minuteNs)]

/-- Whether a root entry is a transient upload or has a sidecar that decodes
to a record. -/
def decodable (lib : Lib) (e : String × Node) : Bool :=
  hasPrefix e.1 "upload_" ||
    match entrySidecar lib e with
    | .record _ => true
    | _ => false

/-- The JSON text `null`. -/
def nullText : List Nat := [110, 117, 108, 108]

/-- A library for evaluation.  The first `Read` fails on every payload of at
most 261 bytes, which the 261-byte header takes in one call together with
`io.EOF`.  The rest are stand-ins, not the algorithms: a checksum for the
MD5 digest, the decimal digits of the seed for the draws of `math/rand`, one
text for every page, and a decoder that knows the texts `null` and `{}`. -/
def refLib : Lib :=
  { gzipLen := fun b => b.length + 23, jsonLen := fun _ => 300, jsonText := fun _ => [123, 125],
    jsonDecode := fun b =>
      if b = nullText then .null
      else if b = [123, 125] then
        .record { ID := "", Name := "", Hash := "", Size := 0, ContentType := "", Modified := 0,
                  IsASCII := false, NameOnDisk := [], TimeToDeletion := 0 }
      else .invalid,
    md5 := fun c =>
      match c with
      | .payload b => "p" ++ toString (b.foldl (fun h x => (31 * h + x + 1) % 1000000007) 7)
      | .sidecar p => "s" ++ p.ID
      | .garbage => "g",
    Intn := fun seed k => seed.toNat / 10 ^ k % 10,
    readFails := fun b => decide (b.length ≤ 261), sniff := fun _ _ => ("text/plain", true) }

/-- A run in which no I/O step fails. -/
def noFaults : Faults :=
  { removeExisting := none, mkdir := false, rename := false, sidecarCreate := false,
    sidecarWrite := none }

/-- A payload of 300 bytes. -/
def payload300 : List Nat := List.replicate 300 7

/-- A store holding one transient upload of `payload300`. -/
def firstUpload : Store := some (.dir [("upload_1", .file 323 (.payload payload300))])

/-- The store after the upload of `firstUpload` has been ingested as `a.txt`,
with a second transient upload of the same payload in it. -/
def secondUpload : Store :=
  match (copyToContentDirectory refLib noFaults 0 "a.txt" "upload_1" 300 defaultConfig
    firstUpload).1 with
  | some (.dir es) => some (.dir (es ++ [("upload_2", .file 323 (.payload payload300))]))
  | other => other

/-- A store whose only item has a sidecar that decodes to a record of size 0. -/
def zeroSizeStore : Store := some (.dir [mkItem "123" "f" 1000 0 0])

/-- An item directory whose sidecar holds the JSON text `null`. -/
def nullItem (id name : String) (diskSize : Nat) : String × Node :=
  (id, .dir [(id ++ ".json.gz", .file 24 (.payload nullText)), (name, .file diskSize (.payload [1]))])

/-- An item whose sidecar records the size 0, followed by an item of
1,000,000,000 bytes modified at the instant 0. -/
def zeroThenExpired : List (String × Node) :=
  [mkItem "101" "a" 1000 0 0, mkItem "102" "b" 1000 1000000000 0]

/-- Five items of 1,000,000,000 bytes each, the third with a sidecar that
holds the text `null`; the others as in `fiveItems`. -/
def fiveItemsNull : List (String × Node) :=
  [mkItem "101" "a" 1000 1000000000 (39 * minuteNs),
   mkItem "102" "b" 1000 1000000000 (41 * minuteNs),
   nullItem "103" "c" 1000,
   mkItem "104" "d" 1000 1000000000 (39 * minuteNs),
   mkItem "105" "e" 1000 1000000000 (41 * minuteNs)]

/-- Five items, the third with a sidecar that decodes to a record of size 0;
the others as in `fiveItems`. -/
def fiveItemsZero : List (String × Node) :=
  [mkItem "101" "a" 1000 1000000000 (39 * minuteNs),
   mkItem "102" "b" 1000 1000000000 (41 * minuteNs),
   mkItem "103" "c" 1000 0 (41 * minuteNs),
   mkItem "104" "d" 1000 1000000000 (39 * minuteNs),
   mkItem "105" "e" 1000 1000000000 (41 * minuteNs)]

/-! ## Theorems -/

/-! ### Durations -/

theorem wrapInt64_of_range (x : Int) (hlo : -(2 ^ 63) ≤ x) (hhi : x < 2 ^ 63) :
    wrapInt64 x = x := by
  unfold wrapInt64
  omega

theorem timeToDeletion_of_range (r : ℚ) (size : Nat) (hpos : 0 < size)
    (hlo : -(2 ^ 63) ≤ truncRate r * minuteNs * ((1000000000 / size : Nat) : Int))
    (hhi : truncRate r * minuteNs * ((1000000000 / size : Nat) : Int) < 2 ^ 63) :
    timeToDeletion r size = some (truncRate r * minuteNs * ((1000000000 / size : Nat) : Int)) := by
  have hk : (0 : Int) ≤ ((1000000000 / size : Nat) : Int) := Int.natCast_nonneg _
  have hne : size ≠ 0 := Nat.pos_iff_ne_zero.mp hpos
  unfold timeToDeletion
  rw [if_neg hne]
  generalize ((1000000000 / size : Nat) : Int) = k at hlo hhi hk ⊢
  generalize truncRate r * minuteNs = a at hlo hhi ⊢
  rcases hk.eq_or_lt with h0 | h1
  · subst h0
    simp [wrapInt64]
  · have h1' : (1 : Int) ≤ k := h1
    have ha : wrapInt64 a = a := by
      apply wrapInt64_of_range
      · nlinarith
      · nlinarith
    rw [ha, wrapInt64_of_range _ hlo hhi]
theorem loadPageInfo_of_sidecar (lib : Lib) (cfg : Config) (s : Store) (id : String) (sz : Nat)
    (p : Page)
    (ttl : Int) (hopen : openItemFile s id (id ++ ".json.gz") = some (sz, .sidecar p))
    (httl : timeToDeletion cfg.MinutesPerGigabyte p.Size = some ttl) :
    loadPageInfo lib id cfg s =
      .ok { p with NameOnDisk := joinPath (joinPath cfg.ContentDirectory p.ID) p.Name,
                   TimeToDeletion := ttl } := by
  simp [loadPageInfo, decodeFile, hopen, httl]

/-- C2 (counterexample): with the rate one half minute per gigabyte and an
item of 1,000,000,000 bytes, `loadPageInfo` sets `TimeToDeletion` to zero,
while the rate times one gigabyte over the size is thirty seconds. -/
theorem loadPageInfo_timeToDeletion_counterexample :
    ∃ q, loadPageInfo refLib "123"
          { defaultConfig with MinutesPerGigabyte := mkRat 1 2 }
          (some (.dir [mkItem "123" "f" 1000 1000000000 0])) = .ok q ∧
      q.TimeToDeletion = 0 ∧
      specTimeToDeletion (mkRat 1 2) q.Size = 30000000000 ∧
      ((q.TimeToDeletion : Int) : ℚ) ≠ specTimeToDeletion (mkRat 1 2) q.Size := by
  refine ⟨_, rfl, rfl, ?_, ?_⟩
  · show specTimeToDeletion (mkRat 1 2) 1000000000 = 30000000000
    simp only [specTimeToDeletion]
    rw [Rat.mkRat_eq_div]
    norm_num
  · show ((0 : Int) : ℚ) ≠ specTimeToDeletion (mkRat 1 2) 1000000000
    simp only [specTimeToDeletion]
    rw [Rat.mkRat_eq_div]
    norm_num

/-- C2 (amended): for an item of size `s > 0` whose sidecar decodes,
`loadPageInfo` sets `TimeToDeletion` to the whole minutes of the rate times
the integer quotient `1000000000 / s`, provided that product fits a signed
64-bit nanosecond count; at rate 60 this is 60 minutes for 1,000,000,000
bytes and 120 minutes for 500,000,000 bytes. -/
theorem loadPageInfo_timeToDeletion (lib : Lib) (cfg : Config) (s : Store) (id : String)
    (sz : Nat) (p : Page)
    (hopen : openItemFile s id (id ++ ".json.gz") = some (sz, .sidecar p))
    (hpos : 0 < p.Size)
    (hlo : -(2 ^ 63) ≤
      truncRate cfg.MinutesPerGigabyte * minuteNs * ((1000000000 / p.Size : Nat) : Int))
    (hhi : truncRate cfg.MinutesPerGigabyte * minuteNs * ((1000000000 / p.Size : Nat) : Int)
      < 2 ^ 63) :
    (∃ q, loadPageInfo lib id cfg s = .ok q ∧
      q.TimeToDeletion =
        truncRate cfg.MinutesPerGigabyte * minuteNs * ((1000000000 / p.Size : Nat) : Int)) ∧
    (cfg.MinutesPerGigabyte = 60 → p.Size = 1000000000 →
      ∃ q, loadPageInfo lib id cfg s = .ok q ∧ q.TimeToDeletion = 60 * minuteNs) ∧
    (cfg.MinutesPerGigabyte = 60 → p.Size = 500000000 →
      ∃ q, loadPageInfo lib id cfg s = .ok q ∧ q.TimeToDeletion = 120 * minuteNs) := by
  have h := timeToDeletion_of_range cfg.MinutesPerGigabyte p.Size hpos hlo hhi
  refine ⟨⟨_, loadPageInfo_of_sidecar lib cfg s id sz p _ hopen h, rfl⟩, ?_, ?_⟩
  · intro hr hs
    refine ⟨_, loadPageInfo_of_sidecar lib cfg s id sz p (60 * minuteNs) hopen ?_, rfl⟩
    rw [hr, hs]
    decide
  · intro hr hs
    refine ⟨_, loadPageInfo_of_sidecar lib cfg s id sz p (120 * minuteNs) hopen ?_, rfl⟩
    rw [hr, hs]
    decide

/-- C2 (witness): the default rate and an item of 500,000,000 bytes. -/
theorem loadPageInfo_timeToDeletion_witness :
    ∃ q, loadPageInfo refLib "123" defaultConfig
        (some (.dir [mkItem "123" "f" 1000 500000000 0])) = .ok q ∧
      q.TimeToDeletion = 120 * minuteNs :=
  (loadPageInfo_timeToDeletion refLib defaultConfig
    (some (.dir [mkItem "123" "f" 1000 500000000 0]))
    "123" 300 (mkPage "123" "f" 500000000 0) rfl (by decide) (by decide) (by decide)).2.2 rfl rfl

/-- C3 (failing input): at the default rate of 60 minutes per gigabyte the
time-to-deletion of a 300-byte item wraps around to a negative duration,
below the 60 minutes of a 1,000,000,000-byte item. -/
theorem timeToDeletion_small_item_wraps :
    timeToDeletion 60 300 = some (-6446745273709551616) ∧
    timeToDeletion 60 1000000000 = some 3600000000000 ∧
    ¬ (∀ s1 s2 : Nat, 0 < s1 → s1 ≤ s2 → ∀ t1 t2, timeToDeletion 60 s1 = some t1 →
        timeToDeletion 60 s2 = some t2 → t2 ≤ t1) := by
  refine ⟨by decide, by decide, ?_⟩
  intro h
  have := h 300 1000000000 (by decide) (by decide) _ _ (by decide : timeToDeletion 60 300 = some (-6446745273709551616)) (by decide : timeToDeletion 60 1000000000 = some 3600000000000)
  omega

/-! ### The walk -/

theorem joinPath_of_two_le (p : Path) (name : String) (h2 : 2 ≤ p.length) (hne : p ≠ ["", ""]) :
    joinPath p name = p ++ [name] := by
  unfold joinPath
  have h1 : p ≠ ["."] := by
    intro h
    rw [h] at h2
    simp at h2
  rw [if_neg h1, if_neg hne]

mutual
theorem walkFiles_get_one (n : Node) (p : Path) (h2 : 2 ≤ p.length) (hne : p ≠ ["", ""])
    (q : Path × Nat) (hq : q ∈ walkFiles p n) : q.1.get? 1 = p.get? 1 := by
  match n with
  | .file sz c =>
    simp [walkFiles] at hq
    rw [hq]
  | .dir es =>
    rw [walkFiles] at hq
    exact walkEntries_get_one es p h2 hne q hq
theorem walkEntries_get_one (es : List (String × Node)) (p : Path) (h2 : 2 ≤ p.length)
    (hne : p ≠ ["", ""]) (q : Path × Nat) (hq : q ∈ walkEntries p es) :
    q.1.get? 1 = p.get? 1 := by
  match es with
  | [] => simp [walkEntries] at hq
  | (nm, n) :: rest =>
    rw [walkEntries, List.mem_append] at hq
    rcases hq with hq | hq
    · have hj := joinPath_of_two_le p nm h2 hne
      have h := walkFiles_get_one n (joinPath p nm) (by rw [hj]; simp; omega)
        (by rw [hj]; intro h; have := congrArg List.length h; simp at this; omega) q hq
      rw [h, hj]
      simp only [List.get?_eq_getElem?]
      rw [List.getElem?_append_left (by omega)]
    · exact walkEntries_get_one rest p h2 hne q hq
end
theorem walkEntries_mem (p : Path) (es : List (String × Node)) (q : Path × Nat) :
    q ∈ walkEntries p es ↔ ∃ e ∈ es, q ∈ walkFiles (joinPath p e.1) e.2 := by
  induction es with
  | nil => simp [walkEntries]
  | cons e rest ih =>
    obtain ⟨nm, n⟩ := e
    rw [walkEntries, List.mem_append, ih]
    simp

theorem joinPath_plain (root : Path) (hroot : PlainRoot root) (name : String) :
    2 ≤ (joinPath root name).length ∧ joinPath root name ≠ ["", ""] ∧
      (joinPath root name).get? 1 = some name := by
  obtain ⟨r, rfl, hdot, hempty⟩ := hroot
  have h1 : ([r] : Path) ≠ ["."] := by simpa using hdot
  have h2 : ([r] : Path) ≠ ["", ""] := by simp
  simp [joinPath, h1, hempty]

/-- Below a plain root every walked path names, as its second segment, the
root entry under which the file lies. -/
theorem walk_root_mem (root : Path) (hroot : PlainRoot root) (es : List (String × Node))
    (q : Path × Nat) (hq : q ∈ walkFiles root (.dir es)) :
    ∃ e ∈ es, q ∈ walkFiles (joinPath root e.1) e.2 ∧ q.1.get? 1 = some e.1 := by
  rw [walkFiles, walkEntries_mem] at hq
  obtain ⟨e, he, hqe⟩ := hq
  obtain ⟨h2, hne, hget⟩ := joinPath_plain root hroot e.1
  exact ⟨e, he, hqe, by rw [walkFiles_get_one e.2 _ h2 hne q hqe, hget]⟩

/-- The sum of the sizes of the walked files. -/
theorem sum_nonneg_sizes (L : List (Path × Nat)) : 0 ≤ (L.map fun q => (q.2 : Int)).sum := by
  induction L with
  | nil => simp
  | cons q rest ih =>
    simp only [List.map_cons, List.sum_cons]
    have : (0 : Int) ≤ (q.2 : Int) := Int.natCast_nonneg _
    omega

/-! ### Joined paths -/

theorem splitSlash_of_no_slash (cs : List Char) (h : '/' ∉ cs) : splitSlash cs = [cs] := by
  induction cs with
  | nil => rfl
  | cons c rest ih =>
    have hc : c ≠ '/' := fun hc => h (hc ▸ List.mem_cons_self _ _)
    have hrest : '/' ∉ rest := fun hr => h (List.mem_cons_of_mem _ hr)
    simp [splitSlash, hc, ih hrest]

theorem segmentsOf_proper (n : String) (h : ProperName n) : segmentsOf n = [n] := by
  simp [segmentsOf, splitSlash_of_no_slash n.data h.2.2.2]

theorem cleanPath_append_proper (rooted : Bool) (segs : List String) (n : String)
    (h : ProperName n) : cleanPath rooted (segs ++ [n]) = cleanPath rooted segs ++ [n] := by
  obtain ⟨h1, h2, h3, _⟩ := h
  simp [cleanPath, List.foldl_append, cleanStep, h1, h2, h3]

theorem removeInEntries_single (n : String) (es : List (String × Node)) :
    removeInEntries [n] es = es.filter fun e => e.1 ≠ n := by
  induction es with
  | nil => simp [removeInEntries]
  | cons e rest ih =>
    obtain ⟨m, x⟩ := e
    by_cases hm : m = n
    · simp [removeInEntries, hm, ih]
    · simp [removeInEntries, hm, ih]

/-- For the name of a directory entry, `os.RemoveAll(path.Join(root, name))`
takes away the root entries of that name and nothing else. -/
theorem removeJoined_proper (root : Path) (es : List (String × Node)) (n : String)
    (h : ProperName n) :
    removeJoined root (some (.dir es)) n = some (.dir (es.filter fun e => e.1 ≠ n)) := by
  unfold removeJoined
  simp only [segmentsOf_proper n h, cleanPath_append_proper _ root n h]
  have hpre : (cleanPath (isRooted root) root).isPrefixOf (cleanPath (isRooted root) root ++ [n])
      = true := by
    rw [List.isPrefixOf_iff_prefix]
    exact List.prefix_append _ _
  rw [if_pos hpre, List.drop_left]
  simp only [removeInEntries_single]

/-! ### The scanner of package `handlers` -/

theorem handlers_visitAll (L : List (Path × Nat)) :
    ∀ acc : Int × String × Int, (∀ q ∈ L, ∃ id, q.1.get? 1 = some id) → 0 ≤ acc.1 →
      acc.1 + (L.map fun q => (q.2 : Int)).sum < 2 ^ 63 →
      ∃ id m, handlers.visitAll L acc = some (acc.1 + (L.map fun q => (q.2 : Int)).sum, id, m) ∧
        acc.2.2 ≤ m ∧ (∀ q ∈ L, (q.2 : Int) ≤ m) ∧
        ((id, m) = acc.2 ∨ ∃ q ∈ L, q.1.get? 1 = some id ∧ (q.2 : Int) = m) := by
  induction L with
  | nil =>
    intro acc _ _ _
    exact ⟨acc.2.1, acc.2.2, by simp [handlers.visitAll], le_refl _, by simp, Or.inl rfl⟩
  | cons q rest ih =>
    intro acc hid h0 hsum
    simp only [List.map_cons, List.sum_cons] at hsum ⊢
    have hq0 : (0 : Int) ≤ (q.2 : Int) := Int.natCast_nonneg _
    have hrest := sum_nonneg_sizes rest
    have hw : wrapInt64 (acc.1 + (q.2 : Int)) = acc.1 + (q.2 : Int) :=
      wrapInt64_of_range _ (by omega) (by omega)
    obtain ⟨qid, hqid⟩ := hid q (List.mem_cons_self _ _)
    have hqid' : q.1[1]? = some qid := by rw [← List.get?_eq_getElem?]; exact hqid
    have hid' : ∀ q' ∈ rest, ∃ id, q'.1.get? 1 = some id :=
      fun q' h => hid q' (List.mem_cons_of_mem _ h)
    by_cases hgt : (q.2 : Int) > acc.2.2
    · have hv : handlers.visit acc q = some (acc.1 + (q.2 : Int), qid, (q.2 : Int)) := by
        simp [handlers.visit, hgt, hqid', hw]
      obtain ⟨id, m, hres, hle, hall, hor⟩ :=
        ih (acc.1 + (q.2 : Int), qid, (q.2 : Int)) hid' (by simp; omega) (by simp; omega)
      refine ⟨id, m, ?_, ?_, ?_, ?_⟩
      · simp only [handlers.visitAll, hv, hres]
        simp [add_assoc]
      · simp at hle; omega
      · intro q' hq'
        rcases List.mem_cons.mp hq' with h | h
        · subst h; simpa using hle
        · exact hall q' h
      · right
        rcases hor with h | ⟨q', hq', h1, h2⟩
        · simp at h
          exact ⟨q, List.mem_cons_self _ _, by rw [h.1]; exact hqid, by rw [h.2]⟩
        · exact ⟨q', List.mem_cons_of_mem _ hq', h1, h2⟩
    · have hv : handlers.visit acc q = some (acc.1 + (q.2 : Int), acc.2.1, acc.2.2) := by
        simp [handlers.visit, hgt, hw]
      obtain ⟨id, m, hres, hle, hall, hor⟩ :=
        ih (acc.1 + (q.2 : Int), acc.2.1, acc.2.2) hid' (by simp; omega) (by simp; omega)
      refine ⟨id, m, ?_, ?_, ?_, ?_⟩
      · simp only [handlers.visitAll, hv, hres]
        simp [add_assoc]
      · simpa using hle
      · intro q' hq'
        rcases List.mem_cons.mp hq' with h | h
        · subst h; simp at hle; omega
        · exact hall q' h
      · rcases hor with h | ⟨q', hq', h1, h2⟩
        · left; simpa using h
        · exact Or.inr ⟨q', List.mem_cons_of_mem _ hq', h1, h2⟩

/-! ### The scanner of package `pkg` -/

theorem pkg_visitAll (L : List (Path × Nat)) :
    ∀ acc : Int × Option pkg.fileInfo, (∀ q ∈ L, ∃ id, q.1.get? 1 = some id) → 0 ≤ acc.1 →
      acc.1 + (L.map fun q => (q.2 : Int)).sum < 2 ^ 63 →
      ∃ l, pkg.visitAll L acc = some (acc.1 + (L.map fun q => (q.2 : Int)).sum, l) ∧
        (∀ l0, acc.2 = some l0 → ∃ l1, l = some l1 ∧ l0.Size ≤ l1.Size) ∧
        (∀ q ∈ L, ∃ l1, l = some l1 ∧ (q.2 : Int) ≤ l1.Size) ∧
        (l = acc.2 ∨ ∃ q ∈ L, ∃ id, q.1.get? 1 = some id ∧ l = some ⟨id, q.1, (q.2 : Int)⟩) := by
  induction L with
  | nil =>
    intro acc _ _ _
    exact ⟨acc.2, by simp [pkg.visitAll], fun l0 h => ⟨l0, h, le_refl _⟩, by simp, Or.inl rfl⟩
  | cons q rest ih =>
    intro acc hid h0 hsum
    simp only [List.map_cons, List.sum_cons] at hsum ⊢
    have hq0 : (0 : Int) ≤ (q.2 : Int) := Int.natCast_nonneg _
    have hrest := sum_nonneg_sizes rest
    have hw : wrapInt64 (acc.1 + (q.2 : Int)) = acc.1 + (q.2 : Int) :=
      wrapInt64_of_range _ (by omega) (by omega)
    obtain ⟨qid, hqid⟩ := hid q (List.mem_cons_self _ _)
    have hqid' : q.1[1]? = some qid := by rw [← List.get?_eq_getElem?]; exact hqid
    have hid' : ∀ q' ∈ rest, ∃ id, q'.1.get? 1 = some id :=
      fun q' h => hid q' (List.mem_cons_of_mem _ h)
    by_cases htake : acc.2 = none ∨ ∃ l0, acc.2 = some l0 ∧ (q.2 : Int) > l0.Size
    · have hv : pkg.visit acc q = some (acc.1 + (q.2 : Int), some ⟨qid, q.1, (q.2 : Int)⟩) := by
        rcases htake with h | ⟨l0, h, hgt⟩
        · simp [pkg.visit, h, hqid', hw]
        · simp [pkg.visit, h, hgt, hqid', hw]
      obtain ⟨l, hres, hle, hall, hor⟩ :=
        ih (acc.1 + (q.2 : Int), some ⟨qid, q.1, (q.2 : Int)⟩) hid' (by simp; omega)
          (by simp; omega)
      obtain ⟨l1, hl1, hsz⟩ := hle _ rfl
      refine ⟨l, ?_, ?_, ?_, ?_⟩
      · simp only [pkg.visitAll, hv, hres]
        simp [add_assoc]
      · intro l0 hl0
        rcases htake with h | ⟨l0', h, hgt⟩
        · rw [h] at hl0; cases hl0
        · rw [h] at hl0
          cases hl0
          exact ⟨l1, hl1, by simp at hsz; omega⟩
      · intro q' hq'
        rcases List.mem_cons.mp hq' with h | h
        · subst h; exact ⟨l1, hl1, by simpa using hsz⟩
        · exact hall q' h
      · right
        rcases hor with h | ⟨q', hq', id, h1, h2⟩
        · exact ⟨q, List.mem_cons_self _ _, qid, hqid, by simpa using h⟩
        · exact ⟨q', List.mem_cons_of_mem _ hq', id, h1, h2⟩
    · obtain ⟨l0, hl0, hngt⟩ : ∃ l0, acc.2 = some l0 ∧ ¬ (q.2 : Int) > l0.Size := by
        cases hacc : acc.2 with
        | none => exact absurd (Or.inl hacc) htake
        | some l0 =>
          exact ⟨l0, rfl, fun hgt => htake (Or.inr ⟨l0, hacc, hgt⟩)⟩
      have hv : pkg.visit acc q = some (acc.1 + (q.2 : Int), some l0) := by
        simp [pkg.visit, hl0, hngt, hw]
      obtain ⟨l, hres, hle, hall, hor⟩ :=
        ih (acc.1 + (q.2 : Int), some l0) hid' (by simp; omega) (by simp; omega)
      obtain ⟨l1, hl1, hsz⟩ := hle _ rfl
      refine ⟨l, ?_, ?_, ?_, ?_⟩
      · simp only [pkg.visitAll, hv, hres]
        simp [add_assoc]
      · intro l0' hl0'
        rw [hl0] at hl0'
        cases hl0'
        exact ⟨l1, hl1, hsz⟩
      · intro q' hq'
        rcases List.mem_cons.mp hq' with h | h
        · subst h; exact ⟨l1, hl1, by omega⟩
        · exact hall q' h
      · rcases hor with h | ⟨q', hq', id, h1, h2⟩
        · left; rw [hl0]; simpa using h
        · exact Or.inr ⟨q', List.mem_cons_of_mem _ hq', id, h1, h2⟩
theorem walk_root_ids (root : Path) (hroot : PlainRoot root) (es : List (String × Node)) :
    ∀ q ∈ walkFiles root (.dir es), ∃ id, q.1.get? 1 = some id := by
  intro q hq
  obtain ⟨e, _, _, h⟩ := walk_root_mem root hroot es q hq
  exact ⟨e.1, h⟩

/-- The scan of package `handlers` below a plain root: the total is the sum
of the file sizes, and the id is the name of a root entry that holds a file
of greatest size. -/
theorem handlers_DirSize_plain (root : Path) (hroot : PlainRoot root)
    (es : List (String × Node))
    (hsum : ((walkFiles root (.dir es)).map fun q => (q.2 : Int)).sum < 2 ^ 63)
    (hpos : ∃ q ∈ walkFiles root (.dir es), 0 < q.2) :
    ∃ e ∈ es, ∃ q ∈ walkFiles (joinPath root e.1) e.2,
      handlers.DirSize root (some (.dir es)) =
        some (((walkFiles root (.dir es)).map fun q => (q.2 : Int)).sum, e.1, false) ∧
      ∀ q' ∈ walkFiles root (.dir es), q'.2 ≤ q.2 := by
  obtain ⟨id, m, hres, _, hall, hor⟩ :=
    handlers_visitAll (walkFiles root (.dir es)) (0, "", 0) (walk_root_ids root hroot es)
      (le_refl _) (by simpa using hsum)
  obtain ⟨q0, hq0, hq0pos⟩ := hpos
  have hm : (0 : Int) < m := by
    have := hall q0 hq0
    have : (0 : Int) < (q0.2 : Int) := by exact_mod_cast hq0pos
    omega
  rcases hor with h | ⟨q, hq, hid, hqm⟩
  · simp at h
    omega
  · obtain ⟨e, he, hqe, hget⟩ := walk_root_mem root hroot es q hq
    have hide : e.1 = id := by
      rw [hget] at hid
      exact Option.some.inj hid
    refine ⟨e, he, q, hqe, ?_, ?_⟩
    · simp only [handlers.DirSize, hres, hide]
      simp
    · intro q' hq'
      have := hall q' hq'
      rw [← hqm] at this
      exact_mod_cast this

/-- The scan of package `pkg` below a plain root: the total is the sum of the
file sizes, and the largest file is a file of greatest size, reported under
the name of the root entry that holds it. -/
theorem pkg_DirSize_plain (root : Path) (hroot : PlainRoot root)
    (es : List (String × Node))
    (hsum : ((walkFiles root (.dir es)).map fun q => (q.2 : Int)).sum < 2 ^ 63)
    (hpos : ∃ q ∈ walkFiles root (.dir es), 0 < q.2) :
    ∃ e ∈ es, ∃ q ∈ walkFiles (joinPath root e.1) e.2,
      pkg.DirSize root (some (.dir es)) =
        some (((walkFiles root (.dir es)).map fun q => (q.2 : Int)).sum,
          some ⟨e.1, q.1, (q.2 : Int)⟩, false) ∧
      ∀ q' ∈ walkFiles root (.dir es), q'.2 ≤ q.2 := by
  obtain ⟨l, hres, _, hall, hor⟩ :=
    pkg_visitAll (walkFiles root (.dir es)) (0, none) (walk_root_ids root hroot es)
      (le_refl _) (by simpa using hsum)
  obtain ⟨q0, hq0, _⟩ := hpos
  obtain ⟨l1, hl1, _⟩ := hall q0 hq0
  rcases hor with h | ⟨q, hq, id, hid, hl⟩
  · rw [hl1] at h
    cases h
  · obtain ⟨e, he, hqe, hget⟩ := walk_root_mem root hroot es q hq
    have hide : e.1 = id := by
      rw [hget] at hid
      exact Option.some.inj hid
    refine ⟨e, he, q, hqe, ?_, ?_⟩
    · simp only [pkg.DirSize, hres, hl, hide]
      simp
    · intro q' hq'
      obtain ⟨l2, hl2, hle⟩ := hall q' hq'
      rw [hl] at hl2
      cases hl2
      simp only at hle
      exact_mod_cast hle

/-- C5 (failing input): under the content directory `srv/data`, holding the
one item `srv/data/123` with a sidecar of 300 bytes and a payload `f` of
1000 bytes, both `DirSize` report the total 1300 and, as the id of the
largest item, the root segment `data` instead of the item directory `123`. -/
theorem DirSize_nested_root_reports_segment :
    handlers.DirSize ["srv", "data"] (some (.dir [mkItem "123" "f" 1000 5000 0])) =
      some (1300, "data", false) ∧
    pkg.DirSize ["srv", "data"] (some (.dir [mkItem "123" "f" 1000 5000 0])) =
      some (1300, some ⟨"data", ["srv", "data", "123", "f"], 1000⟩, false) := by
  constructor <;> rfl

/-- Under a root that is a plain relative directory name and holds item
directories only, with a file of positive size among them and a total below
2^63, both `DirSize` return the sum of the sizes of all files and the name
of an item directory that contains a file of greatest size. -/
theorem DirSize_plain_root (root : Path) (hroot : PlainRoot root) (es : List (String × Node))
    (hitems : ItemsOnly es)
    (hsum : ((walkFiles root (.dir es)).map fun q => (q.2 : Int)).sum < 2 ^ 63)
    (hpos : ∃ q ∈ walkFiles root (.dir es), 0 < q.2) :
    (∃ e ∈ es, ∃ fs, e.2 = .dir fs ∧ ∃ q ∈ walkFiles (joinPath root e.1) e.2,
      handlers.DirSize root (some (.dir es)) =
        some (((walkFiles root (.dir es)).map fun q => (q.2 : Int)).sum, e.1, false) ∧
      ∀ q' ∈ walkFiles root (.dir es), q'.2 ≤ q.2) ∧
    (∃ e ∈ es, ∃ fs, e.2 = .dir fs ∧ ∃ q ∈ walkFiles (joinPath root e.1) e.2,
      pkg.DirSize root (some (.dir es)) =
        some (((walkFiles root (.dir es)).map fun q => (q.2 : Int)).sum,
          some ⟨e.1, q.1, (q.2 : Int)⟩, false) ∧
      ∀ q' ∈ walkFiles root (.dir es), q'.2 ≤ q.2) := by
  obtain ⟨e, he, q, hq, hres, hmax⟩ := handlers_DirSize_plain root hroot es hsum hpos
  obtain ⟨e', he', q', hq', hres', hmax'⟩ := pkg_DirSize_plain root hroot es hsum hpos
  obtain ⟨fs, hfs⟩ := hitems e he
  obtain ⟨fs', hfs'⟩ := hitems e' he'
  exact ⟨⟨e, he, fs, hfs, q, hq, hres, hmax⟩, ⟨e', he', fs', hfs', q', hq', hres', hmax'⟩⟩

theorem twoItems_itemsOnly : ItemsOnly twoItems := by
  intro e he
  simp only [twoItems, twoItemsAt, List.mem_cons, List.mem_singleton, List.not_mem_nil,
    or_false] at he
  rcases he with h | h <;> subst h <;> exact ⟨_, rfl⟩

theorem plainRoot_data : PlainRoot ["data"] := ⟨"data", rfl, by decide, by decide⟩

/-- The default root `data` holding a 10 MB and a 100 MB item. -/
theorem DirSize_plain_root_witness :
    ∃ e ∈ twoItems, ∃ fs, e.2 = .dir fs ∧ ∃ q ∈ walkFiles (joinPath ["data"] e.1) e.2,
      handlers.DirSize ["data"] (some (.dir twoItems)) =
        some (((walkFiles ["data"] (.dir twoItems)).map fun q => (q.2 : Int)).sum, e.1, false) ∧
      ∀ q' ∈ walkFiles ["data"] (.dir twoItems), q'.2 ≤ q.2 :=
  (DirSize_plain_root ["data"] plainRoot_data twoItems twoItems_itemsOnly (by decide)
    ⟨(["data", "111", "small.bin"], 10000000), by decide, by decide⟩).1

/-! ### The quota enforcer -/

theorem removeAll_dir (es : List (String × Node)) (id : String) :
    removeAll (some (.dir es)) id = some (.dir (es.filter fun e => e.1 ≠ id)) := rfl

/-- One round of `handlers.TrimContent` on an over-cap store of items. -/
theorem handlers_TrimContent_round (cfg : Config) (hroot : PlainRoot cfg.ContentDirectory)
    (es : List (String × Node)) (hnames : ∀ e ∈ es, ProperName e.1)
    (hsum : ((walkFiles cfg.ContentDirectory (.dir es)).map fun q => (q.2 : Int)).sum < 2 ^ 63)
    (hpos : ∃ q ∈ walkFiles cfg.ContentDirectory (.dir es), 0 < q.2)
    (hover : cfg.MaxBytesTotal ≤
      ((walkFiles cfg.ContentDirectory (.dir es)).map fun q => (q.2 : Int)).sum)
    (k : Nat) (log : List String) :
    ∃ e ∈ es, ∃ q ∈ walkFiles (joinPath cfg.ContentDirectory e.1) e.2,
      (∀ q' ∈ walkFiles cfg.ContentDirectory (.dir es), q'.2 ≤ q.2) ∧
      handlers.TrimContentLoop cfg (k + 1) (some (.dir es)) log =
        handlers.TrimContentLoop cfg k (some (.dir (es.filter fun e' => e'.1 ≠ e.1)))
          (log ++ [e.1]) := by
  obtain ⟨e, he, q, hq, hres, hmax⟩ := handlers_DirSize_plain _ hroot es hsum hpos
  refine ⟨e, he, q, hq, hmax, ?_⟩
  have hcond : ¬ (((walkFiles cfg.ContentDirectory (.dir es)).map fun q => (q.2 : Int)).sum
      < cfg.MaxBytesTotal ∨ e.1 = "") := by
    intro h
    rcases h with h | h
    · omega
    · exact (hnames e he).1 h
  rw [handlers.TrimContentLoop, hres]
  simp only [if_neg hcond, removeJoined_proper _ es e.1 (hnames e he)]

/-- One round of `pkg.TrimContent` on an over-cap store of items. -/
theorem pkg_TrimContent_round (cfg : Config) (hroot : PlainRoot cfg.ContentDirectory)
    (es : List (String × Node)) (hnames : ∀ e ∈ es, ProperName e.1)
    (hsum : ((walkFiles cfg.ContentDirectory (.dir es)).map fun q => (q.2 : Int)).sum < 2 ^ 63)
    (hpos : ∃ q ∈ walkFiles cfg.ContentDirectory (.dir es), 0 < q.2)
    (hover : cfg.MaxBytesTotal ≤
      ((walkFiles cfg.ContentDirectory (.dir es)).map fun q => (q.2 : Int)).sum)
    (k : Nat) (log : List String) :
    ∃ e ∈ es, ∃ q ∈ walkFiles (joinPath cfg.ContentDirectory e.1) e.2,
      (∀ q' ∈ walkFiles cfg.ContentDirectory (.dir es), q'.2 ≤ q.2) ∧
      pkg.TrimContentLoop cfg (k + 1) (some (.dir es)) log =
        pkg.TrimContentLoop cfg k (some (.dir (es.filter fun e' => e'.1 ≠ e.1)))
          (log ++ [e.1]) := by
  obtain ⟨e, he, q, hq, hres, hmax⟩ := pkg_DirSize_plain _ hroot es hsum hpos
  refine ⟨e, he, q, hq, hmax, ?_⟩
  have hcond : ¬ (((walkFiles cfg.ContentDirectory (.dir es)).map fun q => (q.2 : Int)).sum
      < cfg.MaxBytesTotal) := by omega
  rw [pkg.TrimContentLoop, hres]
  simp only [if_neg hcond, if_neg (hnames e he).1, removeJoined_proper _ es e.1 (hnames e he)]

/-- C6 (failing input): under the content directory `srv/data`, holding
items whose largest files take 10 MB and 100 MB, against a cap of 50 MB,
each of the thirty rounds of either `TrimContent` removes the path
`srv/data/data`; both items stay and the store remains over the cap. -/
theorem TrimContent_nested_root_purges_nothing :
    handlers.TrimContent { cap50 with ContentDirectory := ["srv", "data"] }
        (some (.dir twoItems)) = some (some (.dir twoItems), List.replicate 30 "data") ∧
    pkg.TrimContent { cap50 with ContentDirectory := ["srv", "data"] }
        (some (.dir twoItems)) = some (some (.dir twoItems), List.replicate 30 "data") := by
  constructor <;> rfl

/-- Under a plain root that holds item directories only, with total usage
not below `MaxBytesTotal`, each round of either `TrimContent` removes the
whole directory of an item that holds a file of greatest size and nothing
else; with items whose files on disk take 10 MB and 100 MB under a 50 MB cap
the latter is removed first, whatever the modification times, and the former
stays. -/
theorem TrimContent_removes_largest (cfg : Config) (hroot : PlainRoot cfg.ContentDirectory)
    (es : List (String × Node)) (hitems : ItemsOnly es)
    (hnames : ∀ e ∈ es, ProperName e.1)
    (hsum : ((walkFiles cfg.ContentDirectory (.dir es)).map fun q => (q.2 : Int)).sum < 2 ^ 63)
    (hpos : ∃ q ∈ walkFiles cfg.ContentDirectory (.dir es), 0 < q.2)
    (hover : cfg.MaxBytesTotal ≤
      ((walkFiles cfg.ContentDirectory (.dir es)).map fun q => (q.2 : Int)).sum)
    (k : Nat) (log : List String) :
    (∃ e ∈ es, ∃ fs, e.2 = .dir fs ∧ ∃ q ∈ walkFiles (joinPath cfg.ContentDirectory e.1) e.2,
      (∀ q' ∈ walkFiles cfg.ContentDirectory (.dir es), q'.2 ≤ q.2) ∧
      handlers.TrimContentLoop cfg (k + 1) (some (.dir es)) log =
        handlers.TrimContentLoop cfg k (some (.dir (es.filter fun e' => e'.1 ≠ e.1)))
          (log ++ [e.1])) ∧
    (∃ e ∈ es, ∃ fs, e.2 = .dir fs ∧ ∃ q ∈ walkFiles (joinPath cfg.ContentDirectory e.1) e.2,
      (∀ q' ∈ walkFiles cfg.ContentDirectory (.dir es), q'.2 ≤ q.2) ∧
      pkg.TrimContentLoop cfg (k + 1) (some (.dir es)) log =
        pkg.TrimContentLoop cfg k (some (.dir (es.filter fun e' => e'.1 ≠ e.1)))
          (log ++ [e.1])) ∧
    (∀ m1 m2 : Int, handlers.TrimContent cap50 (some (.dir (twoItemsAt m1 m2))) =
      some (some (.dir [mkItem "111" "small.bin" 10000000 10000000 m1]), ["222"])) ∧
    (∀ m1 m2 : Int, pkg.TrimContent cap50 (some (.dir (twoItemsAt m1 m2))) =
      some (some (.dir [mkItem "111" "small.bin" 10000000 10000000 m1]), ["222"])) := by
  obtain ⟨e, he, q, hq, hmax, hstep⟩ :=
    handlers_TrimContent_round cfg hroot es hnames hsum hpos hover k log
  obtain ⟨e', he', q', hq', hmax', hstep'⟩ :=
    pkg_TrimContent_round cfg hroot es hnames hsum hpos hover k log
  obtain ⟨fs, hfs⟩ := hitems e he
  obtain ⟨fs', hfs'⟩ := hitems e' he'
  exact ⟨⟨e, he, fs, hfs, q, hq, hmax, hstep⟩, ⟨e', he', fs', hfs', q', hq', hmax', hstep'⟩,
    fun _ _ => rfl, fun _ _ => rfl⟩

theorem twoItems_names : ∀ e ∈ twoItems, ProperName e.1 := by
  intro e he
  simp only [twoItems, twoItemsAt, List.mem_cons, List.mem_singleton, List.not_mem_nil,
    or_false] at he
  rcases he with h | h <;> subst h <;> exact ⟨by decide, by decide, by decide, by decide⟩

/-- The 10 MB and 100 MB items under the 50 MB cap. -/
theorem TrimContent_removes_largest_witness :
    ∃ e ∈ twoItems, ∃ fs, e.2 = .dir fs ∧ ∃ q ∈ walkFiles (joinPath cap50.ContentDirectory e.1) e.2,
      (∀ q' ∈ walkFiles cap50.ContentDirectory (.dir twoItems), q'.2 ≤ q.2) ∧
      handlers.TrimContentLoop cap50 (29 + 1) (some (.dir twoItems)) [] =
        handlers.TrimContentLoop cap50 29 (some (.dir (twoItems.filter fun e' => e'.1 ≠ e.1)))
          ([] ++ [e.1]) :=
  (TrimContent_removes_largest cap50 plainRoot_data twoItems twoItems_itemsOnly twoItems_names
    (by decide) ⟨(["data", "111", "small.bin"], 10000000), by decide, by decide⟩ (by decide)
    29 []).1

/-- Either `TrimContent` returns at once, with nothing removed, when the
scan reports a total below the cap. -/
theorem TrimContent_under_cap (cfg : Config) (s : Store) :
    (∀ t id e, handlers.DirSize cfg.ContentDirectory s = some (t, id, e) →
      t < cfg.MaxBytesTotal → handlers.TrimContent cfg s = some (s, [])) ∧
    (∀ t l e, pkg.DirSize cfg.ContentDirectory s = some (t, l, e) →
      t < cfg.MaxBytesTotal → pkg.TrimContent cfg s = some (s, [])) := by
  constructor
  · intro t id e h hlt
    simp [handlers.TrimContent, handlers.TrimContentLoop, h, hlt]
  · intro t l e h hlt
    simp [pkg.TrimContent, pkg.TrimContentLoop, h, hlt]

/-- C7 (failing input): on an empty store with `MaxBytesTotal = 0` the scan
of `pkg.TrimContent` yields a total of 0, not below the cap, and a nil
`largestFile`; reading `largestFile.Id` panics.  `handlers.TrimContent`
returns normally with the store unchanged. -/
theorem pkg_TrimContent_empty_store_panics :
    pkg.DirSize ["data"] (some (.dir [])) = some (0, none, false) ∧
    pkg.TrimContent { defaultConfig with MaxBytesTotal := 0 } (some (.dir [])) = none ∧
    handlers.TrimContent { defaultConfig with MaxBytesTotal := 0 } (some (.dir [])) =
      some (some (.dir []), []) := by
  refine ⟨rfl, rfl, rfl⟩

/-- C9 (failing input): a transient upload of 100 bytes directly under the
root is reported by both `DirSize` as the largest item id and removed by
both `TrimContent` under a cap of 50 bytes; `deleteOld` passes over it on an
ordinary pass and removes it on the startup pass. -/
theorem upload_artifact_treated_as_item :
    handlers.DirSize ["data"] (some (.dir [("upload_123", .file 100 (.payload [1]))])) =
      some (100, "upload_123", false) ∧
    pkg.DirSize ["data"] (some (.dir [("upload_123", .file 100 (.payload [1]))])) =
      some (100, some ⟨"upload_123", ["data", "upload_123"], 100⟩, false) ∧
    handlers.TrimContent { defaultConfig with MaxBytesTotal := 50 }
        (some (.dir [("upload_123", .file 100 (.payload [1]))])) =
      some (some (.dir []), ["upload_123"]) ∧
    pkg.TrimContent { defaultConfig with MaxBytesTotal := 50 }
        (some (.dir [("upload_123", .file 100 (.payload [1]))])) =
      some (some (.dir []), ["upload_123"]) ∧
    (∀ lib : Lib,
      deleteOld lib defaultConfig 0 false
          (some (.dir [("upload_123", .file 100 (.payload [1]))])) =
        some (some (.dir [("upload_123", .file 100 (.payload [1]))]))) ∧
    (∀ lib : Lib,
      deleteOld lib defaultConfig 0 true
          (some (.dir [("upload_123", .file 100 (.payload [1]))])) =
        some (some (.dir []))) := by
  refine ⟨rfl, rfl, rfl, rfl, fun _ => rfl, fun _ => rfl⟩

/-! ### The retention sweeper -/

theorem lookupEntry_of_mem (es : List (String × Node)) (hnodup : (es.map Prod.fst).Nodup)
    (e : String × Node) (he : e ∈ es) : lookupEntry es e.1 = some e.2 := by
  induction es with
  | nil => cases he
  | cons x rest ih =>
    simp only [List.map_cons, List.nodup_cons] at hnodup
    rcases List.mem_cons.mp he with h | h
    · subst h
      simp [lookupEntry]
    · have hne : x.1 ≠ e.1 := by
        intro hx
        exact hnodup.1 (hx ▸ List.mem_map_of_mem Prod.fst h)
      have := ih hnodup.2 h
      simp only [lookupEntry] at this ⊢
      rw [List.find?_cons_of_neg _ (by simpa using hne)]
      exact this

theorem lookupEntry_none (es : List (String × Node)) (name : String)
    (h : ∀ e ∈ es, e.1 ≠ name) : lookupEntry es name = none := by
  simp only [lookupEntry, Option.map_eq_none']
  rw [List.find?_eq_none]
  intro e he
  simpa using h e he

theorem lookupEntry_mem (es : List (String × Node)) (name : String) (n : Node)
    (h : lookupEntry es name = some n) : (name, n) ∈ es := by
  simp only [lookupEntry, Option.map_eq_some'] at h
  obtain ⟨e, he, rfl⟩ := h
  have hmem := List.mem_of_find?_eq_some he
  have hname := List.find?_some he
  simp only [decide_eq_true_eq] at hname
  rw [← hname]
  exact hmem

/-- `loadPageInfo` is the decoder applied to the file it opens. -/
theorem loadPageInfo_eq (lib : Lib) (id : String) (cfg : Config) (s : Store) :
    loadPageInfo lib id cfg s =
      match openItemFile s id (id ++ ".json.gz") with
      | none => .err
      | some (_, c) => pageOf cfg (decodeFile lib c) := by
  unfold loadPageInfo
  split
  · rfl
  · next sz c _ =>
    cases decodeFile lib c <;> rfl

/-- On a store with distinct entry names `loadPageInfo` returns for the name
of an entry what the decoder makes of the sidecar of that entry. -/
theorem loadPageInfo_entry (lib : Lib) (cfg : Config) (es : List (String × Node))
    (hnodup : (es.map Prod.fst).Nodup) (e : String × Node) (he : e ∈ es) :
    loadPageInfo lib e.1 cfg (some (.dir es)) = pageOf cfg (entrySidecar lib e) := by
  rw [loadPageInfo_eq]
  have hl := lookupEntry_of_mem es hnodup e he
  obtain ⟨name, node⟩ := e
  simp only at hl ⊢
  cases node with
  | file sz c => simp [entrySidecar, openItemFile, hl, pageOf]
  | dir fs =>
    simp only [entrySidecar, openItemFile, hl]
    cases hfs : lookupEntry fs (name ++ ".json.gz") with
    | none => simp [pageOf]
    | some n =>
      cases n with
      | dir gs => simp [pageOf]
      | file sz c => simp

theorem openItemFile_absent (es : List (String × Node)) (id name : String)
    (h : ∀ e ∈ es, e.1 ≠ id) : openItemFile (some (.dir es)) id name = none := by
  simp [openItemFile, lookupEntry_none es id h]

theorem loadPageInfo_absent (lib : Lib) (cfg : Config) (es : List (String × Node)) (id : String)
    (h : ∀ e ∈ es, e.1 ≠ id) : loadPageInfo lib id cfg (some (.dir es)) = .err := by
  rw [loadPageInfo_eq, openItemFile_absent es id _ h]

theorem entry_unique (es : List (String × Node)) (hnodup : (es.map Prod.fst).Nodup)
    (e e' : String × Node) (he : e ∈ es) (he' : e' ∈ es) (hn : e'.1 = e.1) : e' = e := by
  have h1 := lookupEntry_of_mem es hnodup e he
  have h2 := lookupEntry_of_mem es hnodup e' he'
  rw [hn] at h2
  exact Prod.ext hn (Option.some.inj (h2.symm.trans h1))

/-- One loop body of `deleteOld`, on a store with distinct proper entry names
whose sidecars are well formed: the entry of the given name is filtered by
`sweepKeeps`, every other entry stays. -/
theorem deleteOldStep_eq_filter (lib : Lib) (cfg : Config) (now : Int) (rm : Bool)
    (cur : List (String × Node)) (hnodup : (cur.map Prod.fst).Nodup)
    (hproper : ∀ e ∈ cur, ProperName e.1)
    (hwf : ∀ e ∈ cur, hasPrefix e.1 "upload_" = false → WellFormedEntry lib e) (name : String) :
    deleteOldStep lib cfg now rm (some (.dir cur)) name =
      some (some (.dir (cur.filter fun e =>
        !decide (e.1 = name) || sweepKeeps lib cfg now rm e))) := by
  have hkeep : ∀ l : List (String × Node),
      (∀ e ∈ l, e.1 = name → sweepKeeps lib cfg now rm e = true) →
      l.filter (fun e => !decide (e.1 = name) || sweepKeeps lib cfg now rm e) = l := by
    intro l h
    rw [List.filter_eq_self]
    intro e he
    by_cases hn : e.1 = name
    · simp [h e he hn]
    · simp [hn]
  unfold deleteOldStep
  by_cases hup : hasPrefix name "upload_" = true
  · rw [if_pos hup]
    cases rm with
    | false =>
      simp only [Bool.false_eq_true, if_false]
      rw [hkeep]
      intro e _ hn
      simp [sweepKeeps, hn, hup]
    | true =>
      simp only [if_true, removeOne]
      congr 3
      apply List.filter_congr
      intro e _
      by_cases hn : e.1 = name
      · simp [sweepKeeps, hn, hup]
      · simp [hn]
  · rw [if_neg hup]
    have hup' : hasPrefix name "upload_" = false := by simpa using hup
    by_cases hex : ∃ e ∈ cur, e.1 = name
    · obtain ⟨e, he, hn⟩ := hex
      have huniq : ∀ e' ∈ cur, e'.1 = name → e' = e :=
        fun e' he' hn' => entry_unique cur hnodup e e' he he' (hn'.trans hn.symm)
      have hload := loadPageInfo_entry lib cfg cur hnodup e he
      rw [hn] at hload
      rw [hload]
      obtain ⟨hnull, hrec⟩ := hwf e he (by rw [hn]; exact hup')
      cases hsc : entrySidecar lib e with
      | invalid =>
        simp only [pageOf]
        rw [hkeep]
        intro e' he' hn'
        rw [huniq e' he' hn']
        simp [sweepKeeps, hn, hup', hsc]
      | null => exact absurd hsc hnull
      | record p =>
        obtain ⟨hid, hsize⟩ := hrec p hsc
        obtain ⟨t, httl⟩ : ∃ t, timeToDeletion cfg.MinutesPerGigabyte p.Size = some t :=
          ⟨_, by rw [timeToDeletion, if_neg hsize]⟩
        simp only [pageOf, httl]
        by_cases hage : clampInt64 (now - p.Modified) < t
        · rw [if_pos hage, hkeep]
          intro e' he' hn'
          rw [huniq e' he' hn']
          simp [sweepKeeps, hn, hup', hsc, httl, hage]
        · rw [if_neg hage, hid, hn, removeJoined_proper _ cur name (hn ▸ hproper e he)]
          congr 3
          apply List.filter_congr
          intro e' he'
          by_cases hn' : e'.1 = name
          · rw [huniq e' he' hn']
            simp [sweepKeeps, hn, hup', hsc, httl, hage]
          · simp [hn']
    · have hno : ∀ e ∈ cur, e.1 ≠ name := fun e he hn => hex ⟨e, he, hn⟩
      rw [loadPageInfo_absent lib cfg cur name hno]
      simp only
      rw [hkeep]
      intro e he hn
      exact absurd hn (hno e he)

theorem deleteOldLoop_eq_filter (lib : Lib) (cfg : Config) (now : Int) (rm : Bool)
    (names : List String) :
    ∀ cur : List (String × Node), (cur.map Prod.fst).Nodup →
      (∀ e ∈ cur, ProperName e.1) →
      (∀ e ∈ cur, hasPrefix e.1 "upload_" = false → WellFormedEntry lib e) →
      deleteOldLoop lib cfg now rm names (some (.dir cur)) =
        some (some (.dir (cur.filter fun e =>
          !decide (e.1 ∈ names) || sweepKeeps lib cfg now rm e))) := by
  induction names with
  | nil =>
    intro cur _ _ _
    simp [deleteOldLoop]
  | cons name rest ih =>
    intro cur hnodup hproper hwf
    rw [deleteOldLoop, deleteOldStep_eq_filter lib cfg now rm cur hnodup hproper hwf name]
    simp only
    rw [ih]
    · rw [List.filter_filter]
      congr 3
      apply List.filter_congr
      intro e _
      by_cases h1 : e.1 = name <;> by_cases h2 : e.1 ∈ rest <;>
        cases hk : sweepKeeps lib cfg now rm e <;> simp [h1, h2, hk]
    · exact hnodup.sublist ((List.filter_sublist _).map _)
    · intro e he
      exact hproper e (List.mem_of_mem_filter he)
    · intro e he
      exact hwf e (List.mem_of_mem_filter he)

theorem joinPath_length (p : Path) (name : String) (h : p ≠ []) (hdot : p ≠ ["."]) :
    2 ≤ (joinPath p name).length := by
  unfold joinPath
  rw [if_neg hdot]
  split
  · simp
  · cases p with
    | nil => exact absurd rfl h
    | cons a rest => simp

mutual
theorem walkFiles_length (n : Node) (p : Path) (h2 : 2 ≤ p.length)
    (q : Path × Nat) (hq : q ∈ walkFiles p n) : 2 ≤ q.1.length := by
  match n with
  | .file sz c =>
    simp [walkFiles] at hq
    rw [hq]
    exact h2
  | .dir es =>
    rw [walkFiles] at hq
    exact walkEntries_length es p h2 q hq
theorem walkEntries_length (es : List (String × Node)) (p : Path) (h2 : 2 ≤ p.length)
    (q : Path × Nat) (hq : q ∈ walkEntries p es) : 2 ≤ q.1.length := by
  match es with
  | [] => simp [walkEntries] at hq
  | (nm, n) :: rest =>
    rw [walkEntries, List.mem_append] at hq
    rcases hq with hq | hq
    · refine walkFiles_length n (joinPath p nm) (joinPath_length p nm ?_ ?_) q hq
      · intro h; rw [h] at h2; simp at h2
      · intro h; rw [h] at h2; simp at h2
    · exact walkEntries_length rest p h2 q hq
end

theorem walk_scanRoot_ids (root : Path) (hroot : ScanRoot root) (es : List (String × Node)) :
    ∀ q ∈ walkFiles root (.dir es), ∃ id, q.1.get? 1 = some id := by
  intro q hq
  rw [walkFiles, walkEntries_mem] at hq
  obtain ⟨e, _, hqe⟩ := hq
  have hlen := walkFiles_length e.2 _ (joinPath_length root e.1 hroot.1 hroot.2) q hqe
  exact ⟨q.1.get ⟨1, by omega⟩, List.get?_eq_get _⟩

theorem pkg_visitAll_some (L : List (Path × Nat)) :
    ∀ acc : Int × Option pkg.fileInfo, (∀ q ∈ L, ∃ id, q.1.get? 1 = some id) →
      ∃ a, pkg.visitAll L acc = some a := by
  induction L with
  | nil => intro acc _; exact ⟨acc, rfl⟩
  | cons q rest ih =>
    intro acc hid
    obtain ⟨qid, hqid⟩ := hid q (List.mem_cons_self _ _)
    have hqid' : q.1[1]? = some qid := by rw [← List.get?_eq_getElem?]; exact hqid
    have hv : ∃ a, pkg.visit acc q = some a := by
      unfold pkg.visit
      cases hacc : acc.2 with
      | none => simp [hqid']
      | some l =>
        by_cases hgt : (q.2 : Int) > l.Size
        · simp [hqid', hgt]
        · simp [hgt]
    obtain ⟨a, ha⟩ := hv
    obtain ⟨b, hb⟩ := ih a (fun q' h => hid q' (List.mem_cons_of_mem _ h))
    exact ⟨b, by rw [pkg.visitAll, ha]; exact hb⟩

/-- A whole pass of `deleteOld` under any content directory but `.`, on a
store with distinct proper entry names whose sidecars are well formed: it
returns, and what it leaves is the listing filtered entry by entry with
`sweepKeeps`. -/
theorem deleteOld_eq_filter (lib : Lib) (cfg : Config) (hroot : ScanRoot cfg.ContentDirectory)
    (now : Int) (rm : Bool) (es : List (String × Node)) (hnodup : (es.map Prod.fst).Nodup)
    (hproper : ∀ e ∈ es, ProperName e.1)
    (hwf : ∀ e ∈ es, hasPrefix e.1 "upload_" = false → WellFormedEntry lib e) :
    deleteOld lib cfg now rm (some (.dir es)) =
      some (some (.dir (es.filter (sweepKeeps lib cfg now rm)))) := by
  obtain ⟨a, ha⟩ := pkg_visitAll_some (walkFiles cfg.ContentDirectory (.dir es)) (0, none)
    (walk_scanRoot_ids _ hroot es)
  unfold deleteOld
  simp only [pkg.DirSize, ha, Option.map_some']
  rw [deleteOldLoop_eq_filter lib cfg now rm _ es hnodup hproper hwf]
  congr 3
  apply List.filter_congr
  intro e he
  have : e.1 ∈ es.map Prod.fst := List.mem_map_of_mem Prod.fst he
  simp [this]

theorem sweepKeeps_item (lib : Lib) (cfg : Config) (now : Int) (rm : Bool) (e : String × Node)
    (hup : hasPrefix e.1 "upload_" = false) (p : Page) (hp : entrySidecar lib e = .record p)
    (ttl : Int) (httl : timeToDeletion cfg.MinutesPerGigabyte p.Size = some ttl) :
    sweepKeeps lib cfg now rm e = decide (clampInt64 (now - p.Modified) < ttl) := by
  simp [sweepKeeps, hup, hp, httl]

/-- In a store as ingestion builds it (distinct proper entry names, every
sidecar decoding to no nil page and, if to a record, to one that names its
own directory with a non-zero size), one pass of `deleteOld` returns and
removes the directory of an item if and only if the time since its
`Modified` is at least the `TimeToDeletion` that `loadPageInfo` computes,
and otherwise leaves the entry as it was; at rate 60 and size 1,000,000,000
an age of 61 minutes removes the item and an age of 59 minutes keeps it. -/
theorem deleteOld_wellFormed_expires_iff (lib : Lib) (cfg : Config)
    (hroot : ScanRoot cfg.ContentDirectory) (now : Int)
    (rm : Bool) (es : List (String × Node)) (hnodup : (es.map Prod.fst).Nodup)
    (hproper : ∀ e ∈ es, ProperName e.1)
    (hwf : ∀ e ∈ es, hasPrefix e.1 "upload_" = false → WellFormedEntry lib e)
    (e : String × Node) (he : e ∈ es) (hup : hasPrefix e.1 "upload_" = false)
    (p : Page) (hp : entrySidecar lib e = .record p) :
    ∃ es' q, deleteOld lib cfg now rm (some (.dir es)) = some (some (.dir es')) ∧
      loadPageInfo lib e.1 cfg (some (.dir es)) = .ok q ∧ q.Modified = p.Modified ∧
      ((∀ e' ∈ es', e'.1 ≠ e.1) ↔ q.TimeToDeletion ≤ clampInt64 (now - q.Modified)) ∧
      (clampInt64 (now - q.Modified) < q.TimeToDeletion → e ∈ es') ∧
      (cfg.MinutesPerGigabyte = 60 → p.Size = 1000000000 →
        (now - p.Modified = 61 * minuteNs → ∀ e' ∈ es', e'.1 ≠ e.1) ∧
        (now - p.Modified = 59 * minuteNs → e ∈ es')) := by
  obtain ⟨_, hsize⟩ := (hwf e he hup).2 p hp
  obtain ⟨ttl, httl⟩ : ∃ t, timeToDeletion cfg.MinutesPerGigabyte p.Size = some t :=
    ⟨_, by rw [timeToDeletion, if_neg hsize]⟩
  have hload : loadPageInfo lib e.1 cfg (some (.dir es)) =
      .ok { p with NameOnDisk := joinPath (joinPath cfg.ContentDirectory p.ID) p.Name,
                   TimeToDeletion := ttl } := by
    rw [loadPageInfo_entry lib cfg es hnodup e he, hp]
    simp only [pageOf, httl]
  have hkeep := sweepKeeps_item lib cfg now rm e hup p hp ttl httl
  have hgone : (∀ e' ∈ es.filter (sweepKeeps lib cfg now rm), e'.1 ≠ e.1) ↔
      ttl ≤ clampInt64 (now - p.Modified) := by
    constructor
    · intro h
      by_contra hlt
      have hk : sweepKeeps lib cfg now rm e = true := by
        rw [hkeep]
        simpa using hlt
      exact h e (List.mem_filter.mpr ⟨he, hk⟩) rfl
    · intro hle e' he' hn
      obtain ⟨hmem, hk⟩ := List.mem_filter.mp he'
      rw [entry_unique es hnodup e e' he hmem hn, hkeep] at hk
      simp only [decide_eq_true_eq] at hk
      omega
  have hstay : clampInt64 (now - p.Modified) < ttl →
      e ∈ es.filter (sweepKeeps lib cfg now rm) := by
    intro hlt
    exact List.mem_filter.mpr ⟨he, by rw [hkeep]; simpa using hlt⟩
  refine ⟨_, _, deleteOld_eq_filter lib cfg hroot now rm es hnodup hproper hwf,
    hload, rfl, hgone, hstay, ?_⟩
  intro hr hs
  have h60 : ttl = 3600000000000 := by
    rw [hr, hs] at httl
    have : timeToDeletion 60 1000000000 = some 3600000000000 := by decide
    rw [this] at httl
    exact (Option.some.inj httl).symm
  constructor
  · intro hage
    apply hgone.mpr
    rw [h60, hage]
    decide
  · intro hage
    apply hstay
    rw [h60, hage]
    decide

/-- C4 (failing input): in the store `zeroThenExpired`, swept 61 minutes
after the instant 0 at the default rate, the item `102` has a sidecar that
decodes and a `TimeToDeletion` of 60 minutes, below its age; yet the pass of
`deleteOld` panics on the division by the size 0 of the item `101` listed
before it and never removes `102`. -/
theorem deleteOld_panics_before_expired_item :
    (∀ lib : Lib, ∃ q,
      loadPageInfo lib "102" defaultConfig (some (.dir zeroThenExpired)) = .ok q ∧
      q.TimeToDeletion = 60 * minuteNs ∧
      q.TimeToDeletion ≤ clampInt64 (61 * minuteNs - q.Modified)) ∧
    (∀ lib : Lib,
      loadPageInfo lib "101" defaultConfig (some (.dir zeroThenExpired)) = .panic) ∧
    (∀ lib : Lib,
      deleteOld lib defaultConfig (61 * minuteNs) false (some (.dir zeroThenExpired)) = none) := by
  refine ⟨fun _ => ⟨_, rfl, rfl, by decide⟩, fun _ => rfl, fun _ => rfl⟩

theorem entrySidecar_mkItem (lib : Lib) (id name : String) (diskSize size : Nat)
    (modified : Int) :
    entrySidecar lib (mkItem id name diskSize size modified) =
      .record (mkPage id name size modified) := by
  simp [entrySidecar, mkItem, lookupEntry, decodeFile]

theorem mkItem_wellFormed (lib : Lib) (id name : String) (diskSize size : Nat) (modified : Int)
    (hsize : size ≠ 0) : WellFormedEntry lib (mkItem id name diskSize size modified) := by
  rw [WellFormedEntry, entrySidecar_mkItem]
  refine ⟨by simp, ?_⟩
  intro p hp
  cases hp
  exact ⟨rfl, hsize⟩

theorem entrySidecar_brokenItem (lib : Lib) (id name : String) (diskSize : Nat) :
    entrySidecar lib (brokenItem id name diskSize) = .invalid := by
  simp [entrySidecar, brokenItem, lookupEntry, decodeFile]

/-- In a store as ingestion builds it, with further items whose sidecar is
missing or is no gzip stream of a JSON record, a pass of `deleteOld`
returns, leaves every item without a decodable sidecar in place, keeps every
decodable item exactly when its age is below its `TimeToDeletion`, and
treats the decodable entries the same whether or not the others are present;
of five items, one with a sidecar that is no gzip stream, the two aged 61
minutes go and the two aged 59 minutes stay. -/
theorem deleteOld_wellFormed_skips (lib : Lib) (cfg : Config)
    (hroot : ScanRoot cfg.ContentDirectory)
    (now : Int) (rm : Bool) (es : List (String × Node)) (hnodup : (es.map Prod.fst).Nodup)
    (hproper : ∀ e ∈ es, ProperName e.1)
    (hwf : ∀ e ∈ es, hasPrefix e.1 "upload_" = false → WellFormedEntry lib e) :
    ∃ es', deleteOld lib cfg now rm (some (.dir es)) = some (some (.dir es')) ∧
      (∀ e ∈ es, hasPrefix e.1 "upload_" = false → entrySidecar lib e = .invalid → e ∈ es') ∧
      (∀ e ∈ es, hasPrefix e.1 "upload_" = false → ∀ p, entrySidecar lib e = .record p →
        ∃ ttl, timeToDeletion cfg.MinutesPerGigabyte p.Size = some ttl ∧
          (e ∈ es' ↔ clampInt64 (now - p.Modified) < ttl)) ∧
      deleteOld lib cfg now rm (some (.dir (es.filter (decodable lib)))) =
        some (some (.dir (es'.filter (decodable lib)))) ∧
      deleteOld lib defaultConfig (100 * minuteNs) false (some (.dir fiveItems)) =
        some (some (.dir [mkItem "102" "b" 1000 1000000000 (41 * minuteNs),
          brokenItem "103" "c" 1000, mkItem "105" "e" 1000 1000000000 (41 * minuteNs)])) := by
  refine ⟨_, deleteOld_eq_filter lib cfg hroot now rm es hnodup hproper hwf, ?_, ?_, ?_, rfl⟩
  · intro e he hup hnone
    exact List.mem_filter.mpr ⟨he, by simp [sweepKeeps, hup, hnone]⟩
  · intro e he hup p hp
    obtain ⟨_, hsize⟩ := (hwf e he hup).2 p hp
    obtain ⟨ttl, httl⟩ : ∃ t, timeToDeletion cfg.MinutesPerGigabyte p.Size = some t :=
      ⟨_, by rw [timeToDeletion, if_neg hsize]⟩
    refine ⟨ttl, httl, ?_⟩
    rw [List.mem_filter, sweepKeeps_item lib cfg now rm e hup p hp ttl httl]
    simp [he]
  · rw [deleteOld_eq_filter lib cfg hroot now rm _
      (hnodup.sublist ((List.filter_sublist _).map _))
      (fun e he => hproper e (List.mem_of_mem_filter he))
      (fun e he => hwf e (List.mem_of_mem_filter he))]
    rw [List.filter_filter, List.filter_filter]
    congr 3
    apply List.filter_congr
    intro e _
    exact Bool.and_comm _ _

/-- C10 (failing input): of five items the third has a sidecar that decodes
to a record of size 0, or one that holds the JSON text `null`; in either
store the pass of `deleteOld` panics at the third item, on the division by
zero or on the nil page, so the items `104` and `105` are never evaluated;
with a sidecar that is no gzip stream in that place the pass returns. -/
theorem deleteOld_panics_on_third_item (lib : Lib) (hnull : lib.jsonDecode nullText = .null) :
    deleteOld lib defaultConfig (100 * minuteNs) false (some (.dir fiveItemsZero)) = none ∧
    loadPageInfo lib "103" defaultConfig (some (.dir fiveItemsNull)) = .panic ∧
    deleteOld lib defaultConfig (100 * minuteNs) false (some (.dir fiveItemsNull)) = none ∧
    (deleteOld lib defaultConfig (100 * minuteNs) false (some (.dir fiveItems))).isSome = true := by
  have hload : loadPageInfo lib "103" defaultConfig (some (.dir fiveItemsNull)) = .panic := by
    have h : loadPageInfo lib "103" defaultConfig (some (.dir fiveItemsNull)) =
        pageOf defaultConfig (lib.jsonDecode nullText) := by
      rw [loadPageInfo_eq]
      rfl
    rw [h, hnull]
    rfl
  refine ⟨rfl, hload, ?_, rfl⟩
  have hrest : deleteOld lib defaultConfig (100 * minuteNs) false (some (.dir fiveItemsNull)) =
      deleteOldLoop lib defaultConfig (100 * minuteNs) false ["103", "104", "105"]
        (some (.dir [mkItem "102" "b" 1000 1000000000 (41 * minuteNs), nullItem "103" "c" 1000,
          mkItem "104" "d" 1000 1000000000 (39 * minuteNs),
          mkItem "105" "e" 1000 1000000000 (41 * minuteNs)])) := rfl
  have hload2 : loadPageInfo lib "103" defaultConfig
      (some (.dir [mkItem "102" "b" 1000 1000000000 (41 * minuteNs), nullItem "103" "c" 1000,
        mkItem "104" "d" 1000 1000000000 (39 * minuteNs),
        mkItem "105" "e" 1000 1000000000 (41 * minuteNs)])) = .panic := by
    have h : loadPageInfo lib "103" defaultConfig
        (some (.dir [mkItem "102" "b" 1000 1000000000 (41 * minuteNs), nullItem "103" "c" 1000,
          mkItem "104" "d" 1000 1000000000 (39 * minuteNs),
          mkItem "105" "e" 1000 1000000000 (41 * minuteNs)])) =
        pageOf defaultConfig (lib.jsonDecode nullText) := by
      rw [loadPageInfo_eq]
      rfl
    rw [h, hnull]
    rfl
  have hup : hasPrefix "103" "upload_" = false := by decide
  rw [hrest, deleteOldLoop, deleteOldStep, hup, hload2]
  rfl

/-- C10 (evaluation): the library `refLib`, whose decoder knows `null`. -/
theorem deleteOld_panics_on_third_item_witness :
    deleteOld refLib defaultConfig (100 * minuteNs) false (some (.dir fiveItemsZero)) = none ∧
    deleteOld refLib defaultConfig (100 * minuteNs) false (some (.dir fiveItemsNull)) = none :=
  ⟨(deleteOld_panics_on_third_item refLib rfl).1, (deleteOld_panics_on_third_item refLib rfl).2.2.1⟩

theorem fiveItems_wellFormed (lib : Lib) :
    ∀ e ∈ fiveItems, hasPrefix e.1 "upload_" = false → WellFormedEntry lib e := by
  intro e he _
  simp only [fiveItems, List.mem_cons, List.mem_singleton, List.not_mem_nil, or_false] at he
  rcases he with h | h | h | h | h <;> subst h
  · exact mkItem_wellFormed lib _ _ _ _ _ (by decide)
  · exact mkItem_wellFormed lib _ _ _ _ _ (by decide)
  · rw [WellFormedEntry, entrySidecar_brokenItem]
    exact ⟨by simp, by simp⟩
  · exact mkItem_wellFormed lib _ _ _ _ _ (by decide)
  · exact mkItem_wellFormed lib _ _ _ _ _ (by decide)

theorem fiveItems_proper : ∀ e ∈ fiveItems, ProperName e.1 := by
  intro e he
  simp only [fiveItems, List.mem_cons, List.mem_singleton, List.not_mem_nil, or_false] at he
  rcases he with h | h | h | h | h <;> subst h <;>
    exact ⟨by decide, by decide, by decide, by decide⟩

theorem scanRoot_data : ScanRoot defaultConfig.ContentDirectory := ⟨by decide, by decide⟩

/-- The five items of `fiveItems` meet the conditions of
`deleteOld_wellFormed_skips`: the item with the sidecar that is no gzip
stream stays in the store. -/
theorem deleteOld_wellFormed_skips_scenario (lib : Lib) :
    ∃ es', deleteOld lib defaultConfig (100 * minuteNs) false (some (.dir fiveItems)) =
        some (some (.dir es')) ∧ brokenItem "103" "c" 1000 ∈ es' := by
  obtain ⟨es', h1, h2, _⟩ :=
    deleteOld_wellFormed_skips lib defaultConfig scanRoot_data (100 * minuteNs) false fiveItems
      (by decide) fiveItems_proper (fiveItems_wellFormed lib)
  exact ⟨es', h1, h2 (brokenItem "103" "c" 1000) (by simp [fiveItems]) (by decide)
    (entrySidecar_brokenItem lib _ _ _)⟩

/-- The first of the five items meets the conditions of
`deleteOld_wellFormed_expires_iff`: aged 61 minutes, it is removed. -/
theorem deleteOld_wellFormed_expires_scenario (lib : Lib) :
    ∃ es', deleteOld lib defaultConfig (100 * minuteNs) false (some (.dir fiveItems)) =
        some (some (.dir es')) ∧ ∀ e' ∈ es', e'.1 ≠ "101" := by
  obtain ⟨es', _, h1, _, _, _, _, h6⟩ :=
    deleteOld_wellFormed_expires_iff lib defaultConfig scanRoot_data (100 * minuteNs) false
      fiveItems (by decide) fiveItems_proper (fiveItems_wellFormed lib)
      (mkItem "101" "a" 1000 1000000000 (39 * minuteNs)) (by simp [fiveItems]) (by decide)
      (mkPage "101" "a" 1000000000 (39 * minuteNs)) (entrySidecar_mkItem lib _ _ _ _ _)
  exact ⟨es', h1, (h6 rfl rfl).1 (by decide)⟩

/-! ### Ingestion -/

theorem openRootFile_mem (es : List (String × Node)) (name : String) (sz : Nat) (c : Content)
    (h : openRootFile (some (.dir es)) name = some (sz, c)) : (name, Node.file sz c) ∈ es := by
  simp only [openRootFile] at h
  split at h
  · next sz' c' heq =>
    cases h
    exact lookupEntry_mem es name _ heq
  · cases h

/-- A call of `copyToContentDirectory` that returns no error has moved a
root file called `tempFname` whose content type could be detected. -/
theorem copyToContentDirectory_ok (lib : Lib) (flt : Faults) (now : Int) (fname tmp : String)
    (size : Nat) (cfg : Config) (es : List (String × Node)) (r : String)
    (h : (copyToContentDirectory lib flt now fname tmp size cfg (some (.dir es))).2 = some r) :
    ∃ sz c, (tmp, Node.file sz c) ∈ es ∧ (GetFileContentType lib fname c).isSome = true := by
  unfold copyToContentDirectory at h
  simp only at h
  split at h
  · cases h
  · split at h
    · cases h
    · next s2 hs2 =>
      split at h
      · cases h
      · next sz c hopen =>
        split at h
        · cases h
        · next ct ascii hct =>
          refine ⟨sz, c, ?_, by rw [hct]; rfl⟩
          split at hopen
          · cases hopen
          · split at hs2
            · cases hs2
            · -- the directory was created on a store that had lost at most the entry of the id
              have hs2' := hs2
              split at hs2'
              · simp only [removeAll, mkdirAll] at hs2'
                cases hs2'
                have := openRootFile_mem _ _ _ _ hopen
                rw [List.mem_append] at this
                rcases this with hm | hm
                · exact List.mem_of_mem_filter hm
                · simp at hm
              · simp only [mkdirAll] at hs2'
                cases hs2'
                have := openRootFile_mem _ _ _ _ hopen
                rw [List.mem_append] at this
                rcases this with hm | hm
                · exact hm
                · simp at hm
theorem existsEntry_false (es : List (String × Node)) (name : String)
    (h : existsEntry (some (.dir es)) name = false) : ∀ e ∈ es, e.1 ≠ name := by
  intro e he hn
  have h1 : lookupEntry es name = none := by
    cases hl : lookupEntry es name with
    | none => rfl
    | some n => simp [existsEntry, hl] at h
  simp only [lookupEntry, Option.map_eq_none', List.find?_eq_none] at h1
  exact h1 e he (by simpa using hn)

/-- C1 (failing input): when the first `Read` of an empty decompressed
stream returns an error, as `io.EOF` is, the upload of an empty payload never
yields a stored item: whatever the file name, the faults, the store and the
fresh temporary name, `handlePost` answers without an id. -/
theorem handlePost_empty_payload_fails (lib : Lib) (hread : lib.readFails [] = true)
    (flt : Faults) (now : Int) (tmp filename : String) (cfg : Config) (s : Store)
    (hfresh : existsEntry s tmp = false) :
    (handlePost lib flt now tmp filename [] cfg s).2 = none := by
  unfold handlePost
  split
  · rfl
  · split
    · next es =>
      simp only
      cases hres : (copyToContentDirectory lib flt now filename tmp ([] : List Nat).length cfg
          (some (.dir (es ++ [(tmp, .file (lib.gzipLen []) (.payload []))])))).2 with
      | none => rfl
      | some r =>
        exfalso
        obtain ⟨sz, c, hmem, hct⟩ := copyToContentDirectory_ok lib flt now filename tmp _ cfg _ r hres
        rw [List.mem_append] at hmem
        rcases hmem with hm | hm
        · exact existsEntry_false es tmp hfresh _ hm rfl
        · simp only [List.mem_singleton, Prod.mk.injEq, Node.file.injEq, true_and] at hm
          rw [hm.2] at hct
          simp [GetFileContentType, hread] at hct
    · rfl

/-- C1 (evaluation): an empty upload named `a.txt` into an empty store. -/
theorem handlePost_empty_payload_fails_witness :
    (handlePost refLib noFaults 0 "upload_1" "a.txt" [] defaultConfig (some (.dir []))).2 = none :=
  handlePost_empty_payload_fails refLib rfl noFaults 0 "upload_1" "a.txt" defaultConfig
    (some (.dir [])) rfl

theorem lookupEntry_unique (es : List (String × Node)) (name : String) (n : Node)
    (hmem : (name, n) ∈ es) (huniq : ∀ e ∈ es, e.1 = name → e.2 = n) :
    lookupEntry es name = some n := by
  cases hl : lookupEntry es name with
  | none =>
    simp only [lookupEntry, Option.map_eq_none', List.find?_eq_none] at hl
    have := hl _ hmem
    simp at this
  | some m =>
    have hm := lookupEntry_mem es name m hl
    rw [← huniq _ hm rfl]

theorem lookupEntry_append_last (es : List (String × Node)) (name : String) (n : Node)
    (h : ∀ e ∈ es, e.1 ≠ name) : lookupEntry (es ++ [(name, n)]) name = some n := by
  apply lookupEntry_unique
  · simp
  · intro e he hn
    rw [List.mem_append] at he
    rcases he with he | he
    · exact absurd hn (h e he)
    · simp only [List.mem_singleton] at he
      rw [he]

/-- The entries that are neither the directory of `id` nor the temporary file. -/
theorem filter_ne_names (es : List (String × Node)) (id tmp : String) :
    ∀ e ∈ (es.filter fun e => e.1 ≠ id).filter fun e => e.1 ≠ tmp, e.1 ≠ id ∧ e.1 ≠ tmp := by
  intro e he
  obtain ⟨h1, h2⟩ := List.mem_filter.mp he
  obtain ⟨_, h3⟩ := List.mem_filter.mp h1
  exact ⟨by simpa using h3, by simpa using h2⟩

theorem store_after_stat (es : List (String × Node)) (id : String) :
    (if existsEntry (some (.dir es)) id = true then removeAll (some (.dir es)) id
      else some (.dir es)) = some (.dir (es.filter fun e => e.1 ≠ id)) := by
  split
  · rfl
  · next h =>
    have hno := existsEntry_false es id (by simpa using h)
    congr 2
    symm
    rw [List.filter_eq_self]
    intro e he
    simpa using hno e he

theorem removeOne_temp (es : List (String × Node)) (tmp : String) (f : Node)
    (hrem : removable f = true) (huniq : ∀ e ∈ es, e.1 = tmp → e.2 = f) :
    removeOne (some (.dir es)) tmp = some (.dir (es.filter fun e => e.1 ≠ tmp)) := by
  simp only [removeOne]
  congr 2
  apply List.filter_congr
  intro e he
  by_cases hn : e.1 = tmp
  · simp [hn, huniq e he hn, hrem]
  · simp [hn]

theorem removeOne_absent (es : List (String × Node)) (tmp : String)
    (h : ∀ e ∈ es, e.1 ≠ tmp) : removeOne (some (.dir es)) tmp = some (.dir es) := by
  simp only [removeOne]
  congr 2
  rw [List.filter_eq_self]
  intro e he
  simp [h e he]

theorem putItemFile_last (es : List (String × Node)) (id name : String) (fs : List (String × Node))
    (f : Node) (h : ∀ e ∈ es, e.1 ≠ id) :
    putItemFile (some (.dir (es ++ [(id, .dir fs)]))) id name f =
      some (.dir (es ++ [(id, .dir (putFile fs name f))])) := by
  simp only [putItemFile, List.map_append, List.map_cons, List.map_nil, if_true]
  congr 3
  conv_rhs => rw [← List.map_id es]
  apply List.map_congr_left
  intro e he
  simp [h e he]

/-- The whole of `copyToContentDirectory` on a store in which `tempFname`
names one root file, a gzip stream of the payload `b`, distinct from the
derived id, in the runs where no removal of an existing directory fails: the
disk and the result.  `E` stands for the entries that are neither the old
directory of the id nor the temporary file. -/
theorem copyToContentDirectory_eq (lib : Lib) (flt : Faults) (now : Int) (fname tmp : String)
    (size : Nat) (cfg : Config) (es : List (String × Node)) (sz : Nat) (b : List Nat)
    (htmp : (tmp, Node.file sz (.payload b)) ∈ es)
    (huniq : ∀ e ∈ es, e.1 = tmp → e.2 = Node.file sz (.payload b))
    (hne : tmp ≠ RandomName lib (lib.md5 (.payload b)))
    (hrmv : (if existsEntry (some (.dir es)) (RandomName lib (lib.md5 (.payload b))) = true
      then flt.removeExisting else none) = none) :
    copyToContentDirectory lib flt now fname tmp size cfg (some (.dir es)) =
      let id := RandomName lib (lib.md5 (.payload b))
      let E := (es.filter fun e => e.1 ≠ id).filter fun e => e.1 ≠ tmp
      let f := Node.file sz (.payload b)
      if flt.mkdir = true then (some (.dir E), none)
      else if flt.rename = true then (some (.dir (E ++ [(id, .dir [])])), none)
      else
        match GetFileContentType lib fname (.payload b) with
        | none => (some (.dir (E ++ [(id, .dir [(fname, f)])])), none)
        | some (contentType, isASCII) =>
          if flt.sidecarCreate = true then (some (.dir (E ++ [(id, .dir [(fname, f)])])), none)
          else
            match flt.sidecarWrite with
            | some (szw, cw) =>
              (some (.dir (E ++ [(id, .dir (putFile [(fname, f)] (id ++ ".json.gz")
                (.file szw cw)))])), none)
            | none =>
              (some (.dir (E ++ [(id, .dir (putFile [(fname, f)] (id ++ ".json.gz")
                (.file (lib.jsonLen
                  { ID := id, Name := fname, Hash := lib.md5 (.payload b), Size := size,
                    ContentType := contentType, Modified := now, IsASCII := isASCII,
                    NameOnDisk := [], TimeToDeletion := 0 })
                  (.sidecar
                  { ID := id, Name := fname, Hash := lib.md5 (.payload b), Size := size,
                    ContentType := contentType, Modified := now, IsASCII := isASCII,
                    NameOnDisk := [], TimeToDeletion := 0 }))))])),
                some (id ++ "/" ++ fname)) := by
  dsimp only
  set id := RandomName lib (lib.md5 (.payload b)) with hid
  set E := (es.filter fun e => e.1 ≠ id).filter fun e => e.1 ≠ tmp with hEdef
  set f := Node.file sz (.payload b) with hf
  have hne' : id ≠ tmp := fun h => hne h.symm
  have hopen0 : openRootFile (some (.dir es)) tmp = some (sz, .payload b) := by
    simp only [openRootFile, lookupEntry_unique es tmp f htmp huniq, f]
  have hE : ∀ e ∈ E, e.1 ≠ id ∧ e.1 ≠ tmp := filter_ne_names es id tmp
  have hmem1 : (tmp, f) ∈ es.filter fun e => e.1 ≠ id :=
    List.mem_filter.mpr ⟨htmp, by simpa using hne⟩
  have huniq1 : ∀ e ∈ es.filter fun e => e.1 ≠ id, e.1 = tmp → e.2 = f :=
    fun e he => huniq e (List.mem_of_mem_filter he)
  have huniq2 : ∀ e ∈ (es.filter fun e => e.1 ≠ id) ++ [(id, Node.dir [])], e.1 = tmp → e.2 = f := by
    intro e he hn
    rw [List.mem_append] at he
    rcases he with he | he
    · exact huniq1 e he hn
    · simp only [List.mem_singleton] at he
      rw [he] at hn
      exact absurd hn hne'
  have hopen2 : openRootFile (some (.dir ((es.filter fun e => e.1 ≠ id) ++ [(id, Node.dir [])])))
      tmp = some (sz, .payload b) := by
    simp only [openRootFile, lookupEntry_unique _ tmp f
      (List.mem_append_left _ hmem1) huniq2, f]
  have hfilter2 : (((es.filter fun e => e.1 ≠ id) ++ [(id, Node.dir [])]).filter
      fun e => e.1 ≠ tmp) = E ++ [(id, Node.dir [])] := by
    rw [List.filter_append]
    simp [hne', E]
  have hrm1 : removeOne (some (.dir (es.filter fun e => e.1 ≠ id))) tmp = some (.dir E) :=
    removeOne_temp _ tmp f rfl huniq1
  have hrm2 : removeOne (some (.dir ((es.filter fun e => e.1 ≠ id) ++ [(id, Node.dir [])]))) tmp
      = some (.dir (E ++ [(id, Node.dir [])])) := by
    rw [removeOne_temp _ tmp f rfl huniq2, hfilter2]
  have hrm3 : ∀ X : Node, removeOne (some (.dir (E ++ [(id, X)]))) tmp =
      some (.dir (E ++ [(id, X)])) := by
    intro X
    apply removeOne_absent
    intro e he
    rw [List.mem_append] at he
    rcases he with he | he
    · exact (hE e he).2
    · simp only [List.mem_singleton] at he
      rw [he]
      exact hne'
  have hput : ∀ (fs : List (String × Node)) (name : String) (g : Node),
      putItemFile (some (.dir (E ++ [(id, .dir fs)]))) id name g =
        some (.dir (E ++ [(id, .dir (putFile fs name g))])) :=
    fun fs name g => putItemFile_last E id name fs g (fun e he => (hE e he).1)
  unfold copyToContentDirectory
  simp only [hopen0, hrmv, store_after_stat]
  by_cases h2 : flt.mkdir = true
  · simp only [h2, if_true, hrm1]
  · simp only [h2, if_false, mkdirAll, Bool.false_eq_true]
    by_cases h3 : flt.rename = true
    · simp only [h3, if_true, hrm2]
    · simp only [h3, if_false, hopen2, removeAll_dir, hfilter2, hput, Bool.false_eq_true]
      have hpf : putFile [] fname (Node.file sz (.payload b)) = [(fname, f)] := rfl
      rw [hpf]
      cases hct : GetFileContentType lib fname (.payload b) with
      | none => simp only [hrm3]
      | some r =>
        obtain ⟨ct, ascii⟩ := r
        simp only [writeGzippedJSON]
        by_cases h4 : flt.sidecarCreate = true
        · simp only [h4, if_true, hrm3]
        · simp only [h4, if_false, Bool.false_eq_true]
          cases h5 : flt.sidecarWrite with
          | some w =>
            obtain ⟨szw, cw⟩ := w
            simp only [hput, hrm3]
          | none => simp only [hput, hrm3]

theorem existsEntry_append_last (es : List (String × Node)) (id : String) (n : Node)
    (h : ∀ e ∈ es, e.1 ≠ id) : existsEntry (some (.dir (es ++ [(id, n)]))) id = true := by
  simp [existsEntry, lookupEntry_append_last es id n h]

theorem existsEntry_absent (es : List (String × Node)) (id : String)
    (h : ∀ e ∈ es, e.1 ≠ id) : existsEntry (some (.dir es)) id = false := by
  simp [existsEntry, lookupEntry_none es id h]

/-- A directory that holds no file under the sidecar name is unavailable to
`loadPageInfo`. -/
theorem loadPageInfo_err_last (lib : Lib) (cfg : Config) (es : List (String × Node))
    (id : String) (fs : List (String × Node)) (h : ∀ e ∈ es, e.1 ≠ id)
    (hfs : ∀ e ∈ fs, e.1 ≠ id ++ ".json.gz") :
    loadPageInfo lib id cfg (some (.dir (es ++ [(id, .dir fs)]))) = .err := by
  rw [loadPageInfo_eq]
  simp [openItemFile, lookupEntry_append_last es id _ h, lookupEntry_none fs _ hfs]

theorem removeOne_gone (es : List (String × Node)) (tmp : String)
    (h : ∀ e ∈ es, e.1 = tmp → removable e.2 = true) :
    existsEntry (removeOne (some (.dir es)) tmp) tmp = false := by
  simp only [removeOne]
  apply existsEntry_absent
  intro e he hn
  obtain ⟨hmem, hk⟩ := List.mem_filter.mp he
  simp [hn, h e hmem hn] at hk

/-- C8 (counterexample): the ingestion of an empty payload returns an error
from content-type detection and leaves the directory `065` it created, with
the payload in it, in the store. -/
theorem copyToContentDirectory_leaves_directory :
    copyToContentDirectory refLib noFaults 0 "a.txt" "upload_1" 0 defaultConfig
        (some (.dir [("upload_1", .file 23 (.payload []))])) =
      (some (.dir [("065", .dir [("a.txt", .file 23 (.payload []))])]), none) := by
  rfl

/-- C8 (amended): whenever `copyToContentDirectory` returns an error, on a
store where the temporary name denotes one root file distinct from the
derived id, the temporary file is gone.  After a failure to remove an
existing directory, what could not be removed stays under the id, the other
entries are as before and nothing is created.  After a failure to create
the directory the store holds no directory for the id.  After a failure of
a later step (rename, content type, sidecar) the directory created for the
id stays in the store; unless the payload is itself stored under the sidecar
name or a failed write has left a file there, it holds no sidecar and
`loadPageInfo` reports an error for the id. -/
theorem copyToContentDirectory_error (lib : Lib) (flt : Faults) (now : Int) (fname tmp : String)
    (size : Nat) (cfg : Config) (es : List (String × Node)) (sz : Nat) (b : List Nat)
    (htmp : (tmp, Node.file sz (.payload b)) ∈ es)
    (huniq : ∀ e ∈ es, e.1 = tmp → e.2 = Node.file sz (.payload b))
    (hne : tmp ≠ RandomName lib (lib.md5 (.payload b)))
    (herr : (copyToContentDirectory lib flt now fname tmp size cfg (some (.dir es))).2 = none) :
    existsEntry (copyToContentDirectory lib flt now fname tmp size cfg (some (.dir es))).1 tmp
      = false ∧
    (∀ residue, existsEntry (some (.dir es)) (RandomName lib (lib.md5 (.payload b))) = true →
      flt.removeExisting = some residue →
      (copyToContentDirectory lib flt now fname tmp size cfg (some (.dir es))).1 =
        removeOne (replaceEntry (some (.dir es)) (RandomName lib (lib.md5 (.payload b))) residue)
          tmp) ∧
    ((existsEntry (some (.dir es)) (RandomName lib (lib.md5 (.payload b))) = true →
        flt.removeExisting = none) →
      (flt.mkdir = true →
        existsEntry (copyToContentDirectory lib flt now fname tmp size cfg (some (.dir es))).1
          (RandomName lib (lib.md5 (.payload b))) = false) ∧
      (flt.mkdir = false →
        existsEntry (copyToContentDirectory lib flt now fname tmp size cfg (some (.dir es))).1
          (RandomName lib (lib.md5 (.payload b))) = true ∧
        (fname ≠ RandomName lib (lib.md5 (.payload b)) ++ ".json.gz" →
          flt.rename = true ∨ flt.sidecarCreate = true ∨ flt.sidecarWrite = none →
          loadPageInfo lib (RandomName lib (lib.md5 (.payload b))) cfg
            (copyToContentDirectory lib flt now fname tmp size cfg (some (.dir es))).1
              = .err))) := by
  set id := RandomName lib (lib.md5 (.payload b)) with hid
  have hne' : id ≠ tmp := fun h => hne h.symm
  have hopen0 : openRootFile (some (.dir es)) tmp = some (sz, .payload b) := by
    simp only [openRootFile, lookupEntry_unique es tmp _ htmp huniq]
  cases hx : (if existsEntry (some (.dir es)) id = true then flt.removeExisting else none) with
  | some residue =>
    have hex : existsEntry (some (.dir es)) id = true := by
      by_contra hc
      rw [if_neg hc] at hx
      cases hx
    rw [if_pos hex] at hx
    have hres : copyToContentDirectory lib flt now fname tmp size cfg (some (.dir es)) =
        (removeOne (replaceEntry (some (.dir es)) id residue) tmp, none) := by
      unfold copyToContentDirectory
      simp only [hopen0, ← hid, hex, if_true, hx]
    rw [hres]
    refine ⟨?_, ?_, ?_⟩
    · simp only [replaceEntry]
      apply removeOne_gone
      intro e he hn
      obtain ⟨e0, he0, rfl⟩ := List.mem_map.mp he
      by_cases h0 : e0.1 = id
      · rw [if_pos h0] at hn
        exact absurd (h0.symm.trans hn) hne'
      · rw [if_neg h0] at hn ⊢
        rw [huniq e0 he0 hn]
        rfl
    · intro residue' _ hr
      rw [hx] at hr
      cases hr
      rfl
    · intro hnone
      rw [hnone hex] at hx
      cases hx
  | none =>
    have heq := copyToContentDirectory_eq lib flt now fname tmp size cfg es sz b htmp huniq hne hx
    dsimp only at heq
    rw [← hid] at heq
    rw [heq] at herr ⊢
    clear heq
    have hE := filter_ne_names es id tmp
    have hE1 : ∀ e ∈ (es.filter fun e => e.1 ≠ id).filter fun e => e.1 ≠ tmp, e.1 ≠ id :=
      fun e he => (hE e he).1
    have htmpE : ∀ X : Node, existsEntry (some (.dir (((es.filter fun e => e.1 ≠ id).filter
        fun e => e.1 ≠ tmp) ++ [(id, X)]))) tmp = false := by
      intro X
      apply existsEntry_absent
      intro e he
      rw [List.mem_append] at he
      rcases he with he | he
      · exact (hE e he).2
      · simp only [List.mem_singleton] at he
        rw [he]
        exact hne'
    have hrmnone : ∀ residue, existsEntry (some (.dir es)) id = true →
        flt.removeExisting = some residue → False := by
      intro residue hex hr
      rw [if_pos hex, hr] at hx
      cases hx
    by_cases h2 : flt.mkdir = true
    · simp only [if_pos h2]
      refine ⟨?_, fun residue hex hr => (hrmnone residue hex hr).elim,
        fun _ => ⟨fun _ => ?_, fun h => ?_⟩⟩
      · exact existsEntry_absent _ _ (fun e he => (hE e he).2)
      · exact existsEntry_absent _ _ hE1
      · rw [h2] at h
        cases h
    · simp only [if_neg h2] at herr ⊢
      refine ⟨?_, fun residue hex hr => (hrmnone residue hex hr).elim,
        fun _ => ⟨fun h => absurd h h2, fun _ => ?_⟩⟩
      · by_cases h3 : flt.rename = true
        · simp only [if_pos h3]
          exact htmpE _
        · simp only [if_neg h3]
          split
          · exact htmpE _
          · split
            · exact htmpE _
            · split
              · exact htmpE _
              · exact htmpE _
      · by_cases h3 : flt.rename = true
        · simp only [if_pos h3]
          exact ⟨existsEntry_append_last _ _ _ hE1, fun _ _ =>
            loadPageInfo_err_last lib cfg _ id [] hE1 (by simp)⟩
        · simp only [if_neg h3] at herr ⊢
          have hpay : fname ≠ id ++ ".json.gz" →
              ∀ e ∈ [(fname, Node.file sz (Content.payload b))], e.1 ≠ id ++ ".json.gz" := by
            intro hf e he
            simp only [List.mem_singleton] at he
            rw [he]
            exact hf
          split at herr
          · exact ⟨existsEntry_append_last _ _ _ hE1, fun hf _ =>
              loadPageInfo_err_last lib cfg _ id _ hE1 (hpay hf)⟩
          · split at herr
            · next h4 =>
              simp only [if_pos h4]
              exact ⟨existsEntry_append_last _ _ _ hE1, fun hf _ =>
                loadPageInfo_err_last lib cfg _ id _ hE1 (hpay hf)⟩
            · next h4 =>
              simp only [if_neg h4]
              split at herr
              · next szw cw h5 =>
                refine ⟨existsEntry_append_last _ _ _ hE1, fun _ hor => ?_⟩
                rcases hor with h | h | h
                · exact absurd h h3
                · exact absurd h h4
                · rw [h5] at h
                  cases h
              · cases herr

/-- C8 (witness): the empty payload, whose content type cannot be detected. -/
theorem copyToContentDirectory_error_witness :
    existsEntry (copyToContentDirectory refLib noFaults 0 "a.txt" "upload_1" 0 defaultConfig
        (some (.dir [("upload_1", .file 23 (.payload []))]))).1 "065" = true ∧
      loadPageInfo refLib "065" defaultConfig
        (copyToContentDirectory refLib noFaults 0 "a.txt" "upload_1" 0 defaultConfig
          (some (.dir [("upload_1", .file 23 (.payload []))]))).1 = .err :=
  ⟨(((copyToContentDirectory_error refLib noFaults 0 "a.txt" "upload_1" 0 defaultConfig
      [("upload_1", .file 23 (.payload []))] 23 [] (List.mem_singleton.mpr rfl)
      (fun e he _ => by rw [List.mem_singleton.mp he])
      (by decide) rfl).2.2 (fun _ => rfl)).2 rfl).1,
   (((copyToContentDirectory_error refLib noFaults 0 "a.txt" "upload_1" 0 defaultConfig
      [("upload_1", .file 23 (.payload []))] 23 [] (List.mem_singleton.mpr rfl)
      (fun e he _ => by rw [List.mem_singleton.mp he])
      (by decide) rfl).2.2 (fun _ => rfl)).2 rfl).2 (by decide) (Or.inr (Or.inr rfl))⟩

/-- Round trip away from the failing inputs: in a run without I/O faults, a
non-empty payload within the per-file cap whose header can be read, stored
under a file name that is not the sidecar name of its id, is answered with
`id/filename`, and the decompressing read of the item returns the payload. -/
theorem handlePost_getData_roundtrip (lib : Lib) (now : Int) (tmp filename : String)
    (b : List Nat) (cfg : Config) (es : List (String × Node))
    (hroot : PlainRoot cfg.ContentDirectory)
    (hcap : (b.length : Int) ≤ cfg.MaxBytesPerFile) (hb : b ≠ [])
    (hread : lib.readFails b = false)
    (hfresh : ∀ e ∈ es, e.1 ≠ tmp)
    (hne : tmp ≠ RandomName lib (lib.md5 (.payload b)))
    (hname : filename ≠ RandomName lib (lib.md5 (.payload b)) ++ ".json.gz") :
    (handlePost lib noFaults now tmp filename b cfg (some (.dir es))).2 =
      some (RandomName lib (lib.md5 (.payload b)) ++ "/" ++ filename) ∧
    getData lib cfg (handlePost lib noFaults now tmp filename b cfg (some (.dir es))).1
      (RandomName lib (lib.md5 (.payload b))) = .ok b := by
  have htmp : (tmp, Node.file (lib.gzipLen b) (.payload b)) ∈
      es ++ [(tmp, Node.file (lib.gzipLen b) (.payload b))] := by simp
  have huniq : ∀ e ∈ es ++ [(tmp, Node.file (lib.gzipLen b) (.payload b))], e.1 = tmp →
      e.2 = Node.file (lib.gzipLen b) (.payload b) := by
    intro e he hn
    rw [List.mem_append] at he
    rcases he with he | he
    · exact absurd hn (hfresh e he)
    · simp only [List.mem_singleton] at he
      rw [he]
  have heq := copyToContentDirectory_eq lib noFaults now filename tmp b.length cfg _
    (lib.gzipLen b) b htmp huniq hne (by simp [noFaults])
  dsimp only at heq
  have hct : GetFileContentType lib filename (.payload b) = some (lib.sniff filename b) := by
    simp [GetFileContentType, hread]
  set id := RandomName lib (lib.md5 (.payload b)) with hid
  have hne' : id ≠ tmp := fun h => hne h.symm
  have hE := filter_ne_names (es ++ [(tmp, Node.file (lib.gzipLen b) (.payload b))]) id tmp
  simp only [show noFaults.mkdir = false from rfl,
    show noFaults.rename = false from rfl, show noFaults.sidecarCreate = false from rfl,
    show noFaults.sidecarWrite = none from rfl, hct, Bool.false_eq_true, if_false] at heq
  have hpost : handlePost lib noFaults now tmp filename b cfg (some (.dir es)) =
      (removeOne (copyToContentDirectory lib noFaults now filename tmp b.length cfg
        (some (.dir (es ++ [(tmp, Node.file (lib.gzipLen b) (.payload b))])))).1 tmp,
       (copyToContentDirectory lib noFaults now filename tmp b.length cfg
        (some (.dir (es ++ [(tmp, Node.file (lib.gzipLen b) (.payload b))])))).2) := by
    simp only [handlePost, if_neg (not_lt.mpr hcap)]
  rw [hpost, heq]
  simp only
  rw [removeOne_absent _ tmp (by
    intro e he
    rw [List.mem_append] at he
    rcases he with he | he
    · exact (hE e he).2
    · simp only [List.mem_singleton] at he
      rw [he]
      exact hne')]
  refine ⟨trivial, ?_⟩
  have hE1 : ∀ e ∈ ((es ++ [(tmp, Node.file (lib.gzipLen b) (.payload b))]).filter
      fun e => e.1 ≠ id).filter fun e => e.1 ≠ tmp, e.1 ≠ id := fun e he => (hE e he).1
  have hsize : b.length ≠ 0 := fun h => hb (List.length_eq_zero.mp h)
  obtain ⟨ttl, httl⟩ : ∃ t, timeToDeletion cfg.MinutesPerGigabyte b.length = some t :=
    ⟨_, by rw [timeToDeletion, if_neg hsize]⟩
  obtain ⟨r, hr, hdot, hempty⟩ := hroot
  have hpath : joinPath (joinPath cfg.ContentDirectory id) filename = [r, id, filename] := by
    rw [hr]
    simp [joinPath, hdot, hempty]
  have hfilt : (([(filename, Node.file (lib.gzipLen b) (.payload b))] : List (String × Node)).filter
      fun e => e.1 ≠ id ++ ".json.gz") = [(filename, Node.file (lib.gzipLen b) (.payload b))] := by
    simp [hname]
  have hside : ∀ g : Node, lookupEntry (putFile [(filename, Node.file (lib.gzipLen b)
      (.payload b))] (id ++ ".json.gz") g) (id ++ ".json.gz") = some g := by
    intro g
    rw [putFile]
    apply lookupEntry_append_last
    intro e he
    simpa using (List.mem_filter.mp he).2
  have hpay : ∀ g : Node, lookupEntry (putFile [(filename, Node.file (lib.gzipLen b)
      (.payload b))] (id ++ ".json.gz") g) filename =
      some (Node.file (lib.gzipLen b) (.payload b)) := by
    intro g
    rw [putFile, hfilt]
    simp [lookupEntry]
  simp only [getData, loadPageInfo, decodeFile, openItemFile, lookupEntry_append_last _ id _ hE1,
    hside, httl, handleGetData, openPath, hpath, List.reverse_cons, List.reverse_nil, List.nil_append,
    List.cons_append, if_true, hpay]

/-- The item directory a successful ingestion writes is well formed when the
declared size is not 0: its sidecar decodes to the record of the ingestion,
which names the directory. -/
theorem ingested_entry_wellFormed (lib : Lib) (id fname : String) (f : Node) (n : Nat)
    (page : Page) (hid : page.ID = id) (hsize : page.Size ≠ 0) :
    WellFormedEntry lib
      (id, .dir (putFile [(fname, f)] (id ++ ".json.gz") (.file n (.sidecar page)))) := by
  have hside : lookupEntry (putFile [(fname, f)] (id ++ ".json.gz") (.file n (.sidecar page)))
      (id ++ ".json.gz") = some (.file n (.sidecar page)) := by
    rw [putFile]
    apply lookupEntry_append_last
    intro e he
    simpa using (List.mem_filter.mp he).2
  have hdec : entrySidecar lib
      (id, .dir (putFile [(fname, f)] (id ++ ".json.gz") (.file n (.sidecar page)))) =
      .record page := by
    simp only [entrySidecar, hside, decodeFile]
  rw [WellFormedEntry, hdec]
  refine ⟨by simp, ?_⟩
  intro p hp
  cases hp
  exact ⟨hid, hsize⟩

/-! ### Identifier assignment -/

/-- The id under which a successful `copyToContentDirectory` stores the
upload is `RandomName` of the MD5 digest of the temporary file, whatever the
store, the time, the faults, the declared size and the configuration. -/
theorem copyToContentDirectory_id (lib : Lib) (flt : Faults) (now : Int) (fname tmp : String)
    (size : Nat) (cfg : Config) (s : Store) (sz : Nat) (c : Content) (r : String)
    (hopen : openRootFile s tmp = some (sz, c))
    (h : (copyToContentDirectory lib flt now fname tmp size cfg s).2 = some r) :
    r = RandomName lib (lib.md5 c) ++ "/" ++ fname := by
  unfold copyToContentDirectory at h
  simp only [hopen] at h
  split at h
  · cases h
  · split at h
    · cases h
    · split at h
      · cases h
      · split at h
        · cases h
        · split at h
          · cases h
          · exact (Option.some.inj h).symm

theorem fnv32a_lt (seedString : String) : fnv32a seedString < 2 ^ 32 := by
  unfold fnv32a
  generalize (seedString.data.flatMap fun c => (String.utf8EncodeChar c).map UInt8.toNat) = bytes
  have hgen : ∀ (l : List Nat) (h0 : Nat), h0 < 2 ^ 32 →
      l.foldl (fun h b => ((h ^^^ b) * 16777619) % 2 ^ 32) h0 < 2 ^ 32 := by
    intro l
    induction l with
    | nil => intro h0 hlt; simpa using hlt
    | cons b rest ih =>
      intro h0 _
      simp only [List.foldl_cons]
      exact ih _ (Nat.mod_lt _ (by decide))
  exact hgen bytes 2166136261 (by decide)

/-- C11: `RandomName` is a function of the fingerprint alone, and of it only
through its 32-bit FNV-1a hash, the non-negative seed of a source made anew
in each call; two ingestions whose temporary files have the same fingerprint
are stored under the same id, whatever their stores, times, file names,
declared sizes, configurations and faults. -/
theorem RandomName_of_fingerprint_only (lib : Lib) :
    (∀ f g : String, fnv32a f = fnv32a g → RandomName lib f = RandomName lib g) ∧
    (∀ f : String, fnv32a f < 2 ^ 32) ∧
    (∀ (flt1 flt2 : Faults) (now1 now2 : Int) (fname1 fname2 tmp1 tmp2 : String)
      (size1 size2 : Nat) (cfg1 cfg2 : Config) (s1 s2 : Store) (sz1 sz2 : Nat) (c1 c2 : Content)
      (r1 r2 : String),
      openRootFile s1 tmp1 = some (sz1, c1) → openRootFile s2 tmp2 = some (sz2, c2) →
      lib.md5 c1 = lib.md5 c2 →
      (copyToContentDirectory lib flt1 now1 fname1 tmp1 size1 cfg1 s1).2 = some r1 →
      (copyToContentDirectory lib flt2 now2 fname2 tmp2 size2 cfg2 s2).2 = some r2 →
      r1 = RandomName lib (lib.md5 c1) ++ "/" ++ fname1 ∧
      r2 = RandomName lib (lib.md5 c1) ++ "/" ++ fname2) := by
  refine ⟨?_, fnv32a_lt, ?_⟩
  · intro f g h
    simp only [RandomName, h]
  · intro flt1 flt2 now1 now2 fname1 fname2 tmp1 tmp2 size1 size2 cfg1 cfg2 s1 s2 sz1 sz2 c1 c2
      r1 r2 h1 h2 hmd5 hr1 hr2
    refine ⟨copyToContentDirectory_id lib flt1 now1 fname1 tmp1 size1 cfg1 s1 sz1 c1 r1 h1 hr1, ?_⟩
    rw [hmd5]
    exact copyToContentDirectory_id lib flt2 now2 fname2 tmp2 size2 cfg2 s2 sz2 c2 r2 h2 hr2

/-- C11 (witness): a payload of 300 bytes ingested as `a.txt`, and once more
at a later time as `b.txt` into the store the first ingestion left, under
another cap: both are stored under the same id. -/
theorem RandomName_of_fingerprint_only_witness :
    "650/a.txt" = RandomName refLib (refLib.md5 (.payload payload300)) ++ "/" ++ "a.txt" ∧
    "650/b.txt" = RandomName refLib (refLib.md5 (.payload payload300)) ++ "/" ++ "b.txt" :=
  (RandomName_of_fingerprint_only refLib).2.2 noFaults noFaults 0 99 "a.txt" "b.txt"
    "upload_1" "upload_2" 300 300 defaultConfig cap50 firstUpload secondUpload 323 323
    (.payload payload300) (.payload payload300) "650/a.txt" "650/b.txt" rfl rfl rfl rfl rfl

/-! ### Totality of the read path -/

/-- Apart from a sidecar that decodes to a nil page or to a record of size
0, `loadPageInfo` returns a page or an error. -/
theorem loadPageInfo_no_panic (lib : Lib) (id : String) (cfg : Config) (s : Store)
    (h : ∀ sz c, openItemFile s id (id ++ ".json.gz") = some (sz, c) →
      decodeFile lib c ≠ .null ∧ ∀ p, decodeFile lib c = .record p → p.Size ≠ 0) :
    (∃ q, loadPageInfo lib id cfg s = .ok q) ∨ loadPageInfo lib id cfg s = .err := by
  rw [loadPageInfo_eq]
  split
  · right
    rfl
  · next sz c heq =>
    obtain ⟨hnull, hrec⟩ := h sz c heq
    cases hd : decodeFile lib c with
    | invalid => right; rfl
    | null => exact absurd hd hnull
    | record p =>
      left
      simp only [pageOf, timeToDeletion, if_neg (hrec p hd)]
      exact ⟨_, rfl⟩

/-- C12 (failing input): a sidecar that decodes to a record whose `Size` is 0
makes the division `1000000000/p.Size` in `loadPageInfo` a division by zero:
`loadPageInfo` panics, and so does the loop body of `deleteOld` that loads
the item. -/
theorem loadPageInfo_zero_size_panics (lib : Lib) (id : String) (cfg : Config) (s : Store)
    (sz : Nat) (p : Page) (now : Int) (rm : Bool)
    (hopen : openItemFile s id (id ++ ".json.gz") = some (sz, .sidecar p))
    (hzero : p.Size = 0) :
    loadPageInfo lib id cfg s = .panic ∧
    (hasPrefix id "upload_" = false → deleteOldStep lib cfg now rm s id = none) := by
  have hload : loadPageInfo lib id cfg s = .panic := by
    simp [loadPageInfo, decodeFile, hopen, timeToDeletion, hzero]
  refine ⟨hload, fun hup => ?_⟩
  simp [deleteOldStep, hup, hload]

/-- C12 (evaluation): the item `123` whose sidecar records the size 0, under
the default configuration; the whole sweep pass panics. -/
theorem loadPageInfo_zero_size_panics_witness :
    loadPageInfo refLib "123" defaultConfig zeroSizeStore = .panic ∧
    deleteOld refLib defaultConfig 0 false zeroSizeStore = none :=
  ⟨(loadPageInfo_zero_size_panics refLib "123" defaultConfig zeroSizeStore 300 (mkPage "123" "f" 0 0)
    0 false rfl rfl).1, rfl⟩

end Webshare
